import Mathlib

/-!
# Verification of the MCP code-assistant service against its specification

This file gives a shallow embedding, in Lean 4, of the parts of the
repository that the frozen claims C1..C10 speak about:

* the command parser and its parameter validation
  (`src/chatbot/command-parser.js`),
* the websocket backend handler and its formatting helpers
  (`src/chatbot/web/backend-server.js`),
* the three tool wrappers `generate-code`, `detect-bugs` and
  `github-commit` (`src/tools/*.js`), and
* the browser-side save helper `writeFilesToDisk` / `writeFile`
  (`src/tools/generate-code.js`).

JavaScript strings are modelled as `String` / `List Char`; the external
collaborators (the hosted language model, the GitHub REST API, the file
system and the wall clock) are modelled as explicit parameters: oracles
`Nat → Except String String`, finite maps `String → Option String`, a
constructive directory tree `FsTree`, and an explicit timestamp string.
Machine-specific behaviours of JavaScript that the claims depend on
(truthiness, `||` defaulting, template interpolation of `undefined`,
`JSON.parse` failure on non-JSON text) are modelled by small total
functions defined below next to their first use.
-/

set_option maxHeartbeats 1000000

namespace MCP

/-! ## JavaScript string helpers (character-list level) -/

/-- ASCII whitespace as trimmed by `String.prototype.trim` (the JS method
also trims further Unicode space code points, which never occur in the
strings this development evaluates). -/
def isWs (c : Char) : Bool :=
  c = ' ' || c = '\t' || c = '\n' || c = '\r'

/-- Remove leading whitespace. -/
def trimL : List Char → List Char
  | [] => []
  | c :: cs => if isWs c then trimL cs else c :: cs

/-- Remove trailing whitespace. -/
def trimR (cs : List Char) : List Char :=
  (trimL cs.reverse).reverse

/-- `String.prototype.trim`. -/
def jsTrim (cs : List Char) : List Char :=
  trimR (trimL cs)

/-- `hay.startsWith(pat)` of JS. -/
def startsWithL (cs pat : List Char) : Bool :=
  pat.isPrefixOf cs

/-- `hay.endsWith(pat)` of JS. -/
def endsWithL (cs pat : List Char) : Bool :=
  pat.reverse.isPrefixOf cs.reverse

/-- Index of the first occurrence of `c`, if any. -/
def firstIdxOf (c : Char) : List Char → Option Nat
  | [] => none
  | a :: as => if a = c then some 0 else (firstIdxOf c as).map (· + 1)

/-- Index of the last occurrence of `c`, if any. -/
def lastIdxOf (c : Char) : List Char → Option Nat
  | [] => none
  | a :: as =>
    match lastIdxOf c as with
    | some k => some (k + 1)
    | none => if a = c then some 0 else none

/-! ## The JSON-repair step shared by `generateCode` and `detectBugs`

`src/tools/generate-code.js` lines 82-104 and `src/tools/detect-bugs.js`
lines 96-117 contain the same cleanup: trim, drop a leading ` ```json `
(7 characters) or ` ``` ` (3 characters) fence, drop a trailing ` ``` `
fence, trim again, then extract with the regex `/\x7b[\s\S]*\x7d/`,
which matches from the first `{` to the last `}` of the text provided
some `}` follows the first `{`. -/

/-- The fence cleanup of the model response (both tools, verbatim). -/
def stripFences (cs : List Char) : List Char :=
  let t1 := jsTrim cs
  let t2 :=
    if startsWithL t1 "```json".toList then t1.drop 7
    else if startsWithL t1 "```".toList then t1.drop 3
    else t1
  let t3 := if endsWithL t2 "```".toList then t2.take (t2.length - 3) else t2
  jsTrim t3

/-- The regex extraction `/\x7b[\s\S]*\x7d/`: the (greedy) match runs from
the first `{` to the last `}`; there is no match when no `}` follows the
first `{`. -/
def extractJson (cs : List Char) : Option (List Char) :=
  match firstIdxOf '{' cs, lastIdxOf '}' cs with
  | some i, some j => if i < j then some ((cs.drop i).take (j - i + 1)) else none
  | _, _ => none

/-- Fence stripping followed by regex extraction; on no match both tools
throw `No valid JSON found in response`. -/
def jsonRepair (s : String) : Except String String :=
  match extractJson (stripFences s.data) with
  | some r => .ok (String.mk r)
  | none => .error "No valid JSON found in response"

/-! ## JSON values and a model of `JSON.parse` / JS value coercions

The tools and the backend handler pass language-model output through
`JSON.parse` and read properties off the parsed value dynamically.  We
model parsed values by `JsonVal` (numbers keep their literal spelling —
no claim depends on numeric arithmetic), property access by `jget`,
JS truthiness by `truthy`, and template interpolation `${v}` by
`jsShow` (missing properties print as `undefined`). -/

inductive JsonVal : Type where
  | null : JsonVal
  | bool (b : Bool) : JsonVal
  | num (lit : String) : JsonVal
  | str (s : String) : JsonVal
  | arr (elems : List JsonVal) : JsonVal
  | obj (fields : List (String × JsonVal)) : JsonVal

/-- Dynamic property read `v[k]`; anything but an object yields
`undefined`.  (JS keeps the last of duplicate keys; the objects this
development evaluates have distinct keys.) -/
def jget : JsonVal → String → Option JsonVal
  | .obj fields, k => (fields.find? (fun f => f.1 = k)).map (·.2)
  | _, _ => none

/-- Optional chaining `v?.k` on a possibly-`undefined` value. -/
def jgetOpt (v : Option JsonVal) (k : String) : Option JsonVal :=
  v.bind (fun w => jget w k)

/-- JS truthiness of a value (with `none` standing for `undefined`).
Number truthiness is value-based in JS; on the literal-string model the
spellings `0`, `-0`, `0.0` are the falsy numerals that occur here. -/
def truthy : Option JsonVal → Bool
  | none => false
  | some .null => false
  | some (.bool b) => b
  | some (.num lit) => !(lit = "0" || lit = "-0" || lit = "0.0")
  | some (.str s) => s ≠ ""
  | some (.arr _) => true
  | some (.obj _) => true

/-- JS `a || b` on values: `a` when truthy, else `b`. -/
def jsOr (a b : Option JsonVal) : Option JsonVal :=
  if truthy a then a else b

/-- `String(v)` / template interpolation of a defined value. -/
def jsShowVal : JsonVal → String
  | .null => "null"
  | .bool b => if b then "true" else "false"
  | .num lit => lit
  | .str s => s
  | .arr elems =>
    String.intercalate "," (elems.attach.map (fun e => jsShowVal e.1))
  | .obj _ => "[object Object]"
termination_by v => sizeOf v
decreasing_by
  have h := List.sizeOf_lt_of_mem e.2
  simp only [JsonVal.arr.sizeOf_spec]
  omega

/-- Template interpolation `${v}`, printing `undefined` for a missing
value. -/
def jsShow : Option JsonVal → String
  | none => "undefined"
  | some v => jsShowVal v

/-! A recursive-descent model of `JSON.parse` (fuel-indexed; the fuel
`length + 1` always suffices since every nesting level consumes input).
It is deliberately a mild over-approximation of the JSON grammar — it
accepts a trailing comma and skips `\u` escapes — none of which occurs
in a string this development parses; what the claims rely on is that
text not starting (after whitespace) with a JSON value start character
is rejected, and that the concrete well-formed documents evaluated in
witnesses parse to their evident value. -/

def skipWs : List Char → List Char
  | [] => []
  | c :: cs => if isWs c then skipWs cs else c :: cs

def isDigit (c : Char) : Bool :=
  '0' ≤ c && c ≤ '9'

/-- Body of a JSON string literal, after its opening quote: the decoded
characters plus the rest of the input after the closing quote. -/
def parseStrBody : List Char → Option (List Char × List Char)
  | [] => none
  | '"' :: rest => some ([], rest)
  | '\\' :: e :: rest =>
    let ch : Option Char :=
      if e = 'n' then some '\n'
      else if e = 't' then some '\t'
      else if e = 'r' then some '\r'
      else if e = 'b' then some (Char.ofNat 8)
      else if e = 'f' then some (Char.ofNat 12)
      else if e = '"' then some '"'
      else if e = '\\' then some '\\'
      else if e = '/' then some '/'
      else none
    match ch with
    | some c => (parseStrBody rest).map (fun p => (c :: p.1, p.2))
    | none => none
  | c :: rest => (parseStrBody rest).map (fun p => (c :: p.1, p.2))

def takeDigits : List Char → List Char × List Char
  | [] => ([], [])
  | c :: cs =>
    if isDigit c then
      let p := takeDigits cs
      (c :: p.1, p.2)
    else ([], c :: cs)

/-- Optional exponent part of a JSON number, appended to the literal
collected so far. -/
def parseExp (litSoFar : List Char) (cs : List Char) :
    Option (List Char × List Char) :=
  match cs with
  | c :: r =>
    if c = 'e' || c = 'E' then
      let (sg, r2) : List Char × List Char :=
        match r with
        | '+' :: rr => (['+'], rr)
        | '-' :: rr => (['-'], rr)
        | _ => ([], r)
      match takeDigits r2 with
      | ([], _) => none
      | (es, r3) => some (litSoFar ++ c :: (sg ++ es), r3)
    else some (litSoFar, cs)
  | [] => some (litSoFar, [])

/-- A JSON number literal (kept as its spelling). -/
def parseNum (cs : List Char) : Option (List Char × List Char) :=
  let (sign, cs1) : List Char × List Char :=
    match cs with
    | '-' :: r => (['-'], r)
    | _ => ([], cs)
  match takeDigits cs1 with
  | ([], _) => none
  | (ds, cs2) =>
    match cs2 with
    | '.' :: r =>
      match takeDigits r with
      | ([], _) => none
      | (fs, cs3) => parseExp (sign ++ ds ++ '.' :: fs) cs3
    | _ => parseExp (sign ++ ds) cs2

mutual

def parseVal : Nat → List Char → Option (JsonVal × List Char)
  | 0, _ => none
  | fuel + 1, cs =>
    match skipWs cs with
    | [] => none
    | c :: rest =>
      if c = '{' then
        (parseObjFields fuel rest).map (fun p => (JsonVal.obj p.1, p.2))
      else if c = '[' then
        (parseArrElems fuel rest).map (fun p => (JsonVal.arr p.1, p.2))
      else if c = '"' then
        (parseStrBody rest).map (fun p => (JsonVal.str (String.mk p.1), p.2))
      else if c = 't' then
        (if startsWithL (c :: rest) "true".toList then
          some (.bool true, (c :: rest).drop 4)
         else none)
      else if c = 'f' then
        (if startsWithL (c :: rest) "false".toList then
          some (.bool false, (c :: rest).drop 5)
         else none)
      else if c = 'n' then
        (if startsWithL (c :: rest) "null".toList then
          some (.null, (c :: rest).drop 4)
         else none)
      else if c = '-' || isDigit c then
        (parseNum (c :: rest)).map (fun p => (JsonVal.num (String.mk p.1), p.2))
      else none

def parseObjFields : Nat → List Char → Option (List (String × JsonVal) × List Char)
  | 0, _ => none
  | fuel + 1, cs =>
    match skipWs cs with
    | '}' :: rest => some ([], rest)
    | '"' :: rest =>
      match parseStrBody rest with
      | some (key, rest2) =>
        match skipWs rest2 with
        | ':' :: rest3 =>
          match parseVal fuel rest3 with
          | some (v, rest4) =>
            match skipWs rest4 with
            | ',' :: rest5 =>
              (parseObjFields fuel rest5).map
                (fun p => ((String.mk key, v) :: p.1, p.2))
            | '}' :: rest5 => some ([(String.mk key, v)], rest5)
            | _ => none
          | none => none
        | _ => none
      | none => none
    | _ => none

def parseArrElems : Nat → List Char → Option (List JsonVal × List Char)
  | 0, _ => none
  | fuel + 1, cs =>
    match skipWs cs with
    | ']' :: rest => some ([], rest)
    | cs2 =>
      match parseVal fuel cs2 with
      | some (v, rest) =>
        match skipWs rest with
        | ',' :: rest2 => (parseArrElems fuel rest2).map (fun p => (v :: p.1, p.2))
        | ']' :: rest2 => some ([v], rest2)
        | _ => none
      | none => none

end

/-- `JSON.parse`: parse one value and require only whitespace after it. -/
def jsonParse (s : String) : Option JsonVal :=
  match parseVal (s.data.length + 1) s.data with
  | some (v, rest) => if skipWs rest = [] then some v else none
  | none => none

/-! ## The command parser (`src/chatbot/command-parser.js`) -/

structure ToolConfig where
  keywords : List String
  requiredParams : List String
  optionalParams : List String
deriving DecidableEq

/-- The `commands` table built in the `CommandParser` constructor
(lines 8-29). -/
def commands : List (String × ToolConfig) :=
  [("generate-code",
    ⟨["generate", "create", "build", "make", "code", "project", "app"],
     ["description", "language"],
     ["framework", "includeTests"]⟩),
   ("detect-bugs",
    ⟨["detect", "find", "bugs", "errors", "issues", "analyze", "check bugs"],
     ["language", "rootDirectory", "fileName"],
     ["code"]⟩),
   ("check-best-practices",
    ⟨["best practices", "review", "code quality", "standards", "check code"],
     ["code", "language"],
     ["framework", "strictMode"]⟩),
   ("github-commit",
    ⟨["commit", "push", "github", "git", "upload"],
     ["localPath", "repo", "branch", "message"],
     []⟩)]

def lookupTool (toolName : String) : Option ToolConfig :=
  (commands.find? (fun e => e.1 = toolName)).map (·.2)

/-- The JS test `!params[param]` on an extracted parameter map of strings:
absent and empty-string values count as missing. -/
def paramMissing (params : String → Option String) (field : String) : Bool :=
  match params field with
  | none => true
  | some v => v = ""

/-- `CommandParser.validateParams` (lines 336-350): the falsy required
parameters in table order, and `valid` iff there is none.  (Called with a
tool name outside the table the JS method would throw reading
`config.requiredParams`; the backend only calls it with a tool returned by
`parseCommand`, which is always in the table — the `getD` default is
unreachable from the handler.) -/
def validateParams (params : String → Option String) (toolName : String) :
    Bool × List String :=
  let config := (lookupTool toolName).getD ⟨[], [], []⟩
  let missing := config.requiredParams.filter (fun p => paramMissing params p)
  (missing.isEmpty, missing)

/-! ## The backend websocket handler (`src/chatbot/web/backend-server.js`) -/

/-- A `response`-typed websocket payload sent to the browser: its `type`
tag (`success`, `error`, ...), its `content` text, and the raw
`projectData` value attached to `generate-code` success replies. -/
structure WsReply where
  rtype : String
  content : String
  projectData : Option JsonVal

/-- Lines 110-119 of the message handler: when validation fails, reply
with an error-tagged response listing the missing parameter names; when
it succeeds, fall through (`none`) to the tool call. -/
def validationReply (toolName : String) (params : String → Option String) :
    Option WsReply :=
  let validation := validateParams params toolName
  if validation.1 then none
  else
    some ⟨"error",
      "Missing required parameters: " ++ String.intercalate ", " validation.2 ++
        "\n\nPlease provide all required information.", none⟩

/-! ## A constructive file-system tree

`writeFilesToDisk` / `writeFile` (`src/tools/generate-code.js` lines
163-226) write a generated project through the File System Access API;
`getAllFiles` (`src/tools/github-commit.js` lines 205-243) scans a
directory recursively.  A directory is an ordered chain of entries
(`entry name child rest`), written as a first-order inductive so that
every operation below is structurally recursive; a name maps either to a
`file` with contents or to a further directory (`nil` or `entry ...`).
Path components are `List Char`. -/

inductive FsTree : Type where
  | file (content : String) : FsTree
  | nil : FsTree
  | entry (name : List Char) (child : FsTree) (rest : FsTree) : FsTree
deriving DecidableEq

/-- Directory lookup of one name in an entry chain. -/
def getEntry : FsTree → List Char → Option FsTree
  | .entry m c r, n => if m = n then some c else getEntry r n
  | _, _ => none

/-- Replace the binding of `n` in place, or append a new binding at the
end of the chain. -/
def setEntry : FsTree → List Char → FsTree → FsTree
  | .entry m c r, n, x =>
    if m = n then .entry m x r else .entry m c (setEntry r n x)
  | t, n, x => .entry n x t

/-- The directory walk of `writeFile` (generate-code.js lines 205-226):
descend along `dirs` with `getDirectoryHandle(part, create)` skipping
empty parts, then `getFileHandle(fileName, create)` and write — skipped
entirely when `fileName` is empty, as the JS `if (fileName)` does.
`none` models the `TypeMismatchError` thrown when a needed directory or
the file handle collides with an existing entry of the other kind. -/
def writeInDir : FsTree → List (List Char) → List Char → String → Option FsTree
  | t, [], fn, c =>
    if fn = [] then some t
    else
      match getEntry t fn with
      | some (.file _) => some (setEntry t fn (.file c))
      | some _ => none
      | none => some (setEntry t fn (.file c))
  | t, d :: ds, fn, c =>
    if d = [] then writeInDir t ds fn c
    else
      match getEntry t d with
      | some (.file _) => none
      | some sub => (writeInDir sub ds fn c).map (fun sub2 => setEntry t d sub2)
      | none => (writeInDir FsTree.nil ds fn c).map (fun sub2 => setEntry t d sub2)

/-- `writeFile(dirHandle, filePath, content)`: split the path on `/`;
the popped last part is the file name, the remaining parts are the
directories. -/
def writeFileFS (t : FsTree) (path : String) (content : String) : Option FsTree :=
  let parts := path.data.splitOn '/'
  writeInDir t parts.dropLast (parts.getLast?.getD []) content

/-- `writeFilesToDisk(projectData)` (lines 163-202): write every `files`
entry, in order, into the freshly created project root directory
(modelled as the empty tree). -/
def writeFilesToDisk (files : List (String × String)) : Option FsTree :=
  files.foldlM (fun t f => writeFileFS t f.1 f.2) FsTree.nil

/-- The fixed ignore list of `getAllFiles` (github-commit.js lines
210-221). -/
def ignoreList : List String :=
  [".git", "node_modules", ".DS_Store", "dist", "build", ".env", ".env.local",
   "package-lock.json", "yarn.lock", "pnpm-lock.yaml"]

def ignoreListC : List (List Char) :=
  ignoreList.map String.data

/-- `getAllFiles` (lines 205-243) as a scan of the tree: walk the entry
chain, skip ignored names before looking at the entry, recurse into
directories, and record each file as (relative path components,
contents).  The `readFileSync` of the blob-upload loop is fused in by
returning the contents alongside the path.  (Called on a plain file the
JS function would throw from `readdirSync`; here such a scan returns
`[]` — no theorem exercises that case.) -/
def scan : FsTree → List (List Char) → List (List (List Char) × String)
  | .file _, _ => []
  | .nil, _ => []
  | .entry n x r, pre =>
    (if n ∈ ignoreListC then []
     else
       match x with
       | .file c => [(pre ++ [n], c)]
       | d => scan d (pre ++ [n])) ++ scan r pre

/-- One chain entry's contribution to a scan (the bracketed term of
`scan` on `entry`, named so proofs can decompose scans). -/
def contrib (n : List Char) (x : FsTree) (pre : List (List Char)) :
    List (List (List Char) × String) :=
  if n ∈ ignoreListC then []
  else
    match x with
    | .file c => [(pre ++ [n], c)]
    | d => scan d (pre ++ [n])

/-- `path.relative(basePath, filePath).replace(/\\/g, '/')`: the
components joined with `/`, every backslash replaced by a forward
slash. -/
def renderPath (cs : List (List Char)) : String :=
  String.mk ((List.intercalate ['/'] cs).map (fun c => if c = '\\' then '/' else c))

/-- The (relativePath, contents) list the commit's blob-upload loop
iterates over. -/
def getAllFilesR (t : FsTree) : List (String × String) :=
  (scan t []).map (fun e => (renderPath e.1, e.2))

/-- Resolve a component path to the node it denotes, if any. -/
def findNode : FsTree → List (List Char) → Option FsTree
  | t, [] => some t
  | t, d :: ds =>
    match getEntry t d with
    | some sub => findNode sub ds
    | none => none

/-- The names bound along one entry chain. -/
def chainNames : FsTree → List (List Char)
  | .entry n _ r => n :: chainNames r
  | _ => []

/-- A real directory tree: no chain binds a name twice. -/
def wfTree : FsTree → Bool
  | .entry n x r => wfTree x && wfTree r && !(chainNames r).contains n
  | _ => true

/-- A component path can be added freshly to the tree: descending stops
at a missing entry or reaches the parent through directories only, and
the final name is unbound. -/
def canAdd : FsTree → List (List Char) → Bool
  | _, [] => false
  | t, [n] => (getEntry t n).isNone
  | t, d :: e :: ds =>
    match getEntry t d with
    | none => true
    | some (.file _) => false
    | some sub => canAdd sub (e :: ds)

/-- The components of a file path, as `filePath.split("/")` produces
them. -/
def comps (path : String) : List (List Char) :=
  path.data.splitOn '/'

/-- A payload path that survives the round trip verbatim: every
component is nonempty (no leading, trailing or doubled `/`), is not on
the ignore list, and contains no backslash. -/
def goodPath (path : String) : Bool :=
  (comps path).all
    (fun comp => !comp.isEmpty && !ignoreListC.contains comp && !comp.contains '\\')

/-- No payload path leads through another one: the component lists are
pairwise not prefixes of one another (this also rules out duplicate
paths). -/
@[reducible] def sepPaths (files : List (String × String)) : Prop :=
  files.Pairwise
    (fun f g => ¬ (comps f.1 <+: comps g.1) ∧ ¬ (comps g.1 <+: comps f.1))

/-! ## Process environment, string reads and the `detectBugs` tool
(`src/tools/detect-bugs.js`) -/

/-- The process environment, variable name to optional value. -/
def Env : Type := String → Option String

/-- JS truthiness of an optional string value (`params.x && ...`,
`process.env.X`): absent and empty strings are falsy. -/
def truthyS : Option String → Bool
  | none => false
  | some s => s ≠ ""

/-- Template interpolation of an optional string. -/
def showOptS : Option String → String
  | none => "undefined"
  | some s => s

/-- `path.join(a, b)`, modelled as concatenation with one separator
(`path.join` additionally normalises repeated separators and dot
segments, which the paths evaluated here do not contain). -/
def pathJoin (a b : String) : String :=
  a ++ "/" ++ b

/-- `hay.includes(pat)` of JS. -/
def containsSub (hay pat : String) : Bool :=
  decide (pat.data <:+: hay.data)

/-- The `error.message` of a `readFile` rejection with code `ENOENT`. -/
def enoentMsg (p : String) : String :=
  "ENOENT: no such file or directory, open '" ++ p ++ "'"

/-- The parameters of a `detect-bugs` invocation (the MCP schema marks
`rootDirectory`/`fileName` required, but the tool re-checks them for
truthiness, so they are optional here). -/
structure DetectParams where
  code : Option String
  language : String
  rootDirectory : Option String
  fileName : Option String

/-- Lines 14-49 of `detectBugs`: when both `rootDirectory` and
`fileName` are truthy, read `join(root, fileName)`; on `ENOENT`, when
the file name does not contain `src/`, retry `join(root, 'src',
fileName)`; a successful read overwrites `params.code`.  Returns
`(codeToAnalyze, filePath)`.  With the file system as a partial map the
only read failure is `ENOENT`, so of the JS error triage only the
`ENOENT` branches are reachable (the `EPERM`/`EACCES` messages are not
modelled). -/
def resolveCode (files : String → Option String) (p : DetectParams) :
    Except String (Option String × Option String) :=
  if truthyS p.rootDirectory && truthyS p.fileName then
    let root := p.rootDirectory.getD ""
    let fn := p.fileName.getD ""
    let fp := pathJoin root fn
    match files fp with
    | some content => .ok (some content, some fp)
    | none =>
      if !containsSub fn "src/" then
        let fp2 := pathJoin (pathJoin root "src") fn
        match files fp2 with
        | some content2 => .ok (some content2, some fp2)
        | none =>
          .error ("File not found. Tried:\n1. " ++ fp ++ "\n2. " ++ fp2 ++
            "\n\nError: " ++ enoentMsg fp2)
      else
        .error ("Failed to read file " ++ fp ++ ": " ++ enoentMsg fp)
  else .ok (p.code, none)

/-- The prompt template of `detectBugs` (lines 52-80), braces of the
JSON skeleton written as escapes. -/
def detectPrompt (p : DetectParams) (codeToAnalyze : String)
    (filePath : Option String) : String :=
  "Analyze the following code for potential bugs, errors, and issues:\n\n" ++
  "Language: " ++ p.language ++ "\n" ++
  (match filePath with
   | some _ => "File: " ++ showOptS p.fileName
   | none => "") ++ "\n" ++
  "Code:\n```" ++ p.language ++ "\n" ++ codeToAnalyze ++ "\n```\n\n" ++
  "Please provide a detailed bug analysis with the following structure:\n" ++
  "\x7b\n  \"summary\": \x7b\n    \"totalIssues\": 0,\n    \"critical\": 0,\n" ++
  "    \"warning\": 0,\n    \"info\": 0\n  \x7d,\n  \"issues\": [\n    \x7b\n" ++
  "      \"severity\": \"critical|warning|info\",\n" ++
  "      \"type\": \"bug type (e.g., null pointer, memory leak, logic error)\",\n" ++
  "      \"line\": \"line number or range\",\n" ++
  "      \"description\": \"detailed description of the issue\",\n" ++
  "      \"suggestion\": \"how to fix the issue\",\n" ++
  "      \"codeSnippet\": \"relevant code snippet\"\n    \x7d\n  ],\n" ++
  "  \"overallAssessment\": \"general assessment of code quality and bug risk\"\n\x7d"

/-- An object field that is dropped when its value is `undefined` (a JS
object would carry the property with value `undefined`; `JSON.stringify`
and every later read behave identically on the two encodings). -/
def optField (k : String) : Option JsonVal → List (String × JsonVal)
  | some v => [(k, v)]
  | none => []

/-- The success value of `detectBugs` (lines 119-128). -/
def detectResult (p : DetectParams) (codeToAnalyze : String)
    (filePath : Option String) (bugAnalysis : JsonVal) (now : String) : JsonVal :=
  .obj
    ([("success", .bool true), ("language", .str p.language)] ++
     (match filePath with
      | some fp => [("filePath", .str fp), ("fileName", .str (showOptS p.fileName))]
      | none => []) ++
     [("linesOfCode", .num (toString (codeToAnalyze.data.splitOn '\n').length))] ++
     optField "summary" (jget bugAnalysis "summary") ++
     optField "issues" (jget bugAnalysis "issues") ++
     optField "overallAssessment" (jget bugAnalysis "overallAssessment") ++
     [("analyzedAt", .str now)])

/-- A placeholder for the engine-dependent `SyntaxError` message of
`JSON.parse`; no claim inspects it. -/
def jsonParseFailMsg : String :=
  "Unexpected token in JSON"

/-- `detectBugs(params)`: the whole tool, with the language model as an
oracle from the prompt to its response and the wall clock as an explicit
timestamp.  The second component counts the `generateContent` calls made
(0 or 1 — the call is never retried). -/
def detectBugsM (env : Env) (files : String → Option String)
    (oracle : String → Except String String) (now : String) (p : DetectParams) :
    Except String JsonVal × Nat :=
  if !truthyS (env "GEMINI_API_KEY") then
    (.error "GEMINI_API_KEY environment variable is not set", 0)
  else
    match resolveCode files p with
    | .error e => (.error e, 0)
    | .ok (codeToAnalyze, filePath) =>
      if !truthyS codeToAnalyze then
        (.error ("No code provided. Either provide 'code' parameter or " ++
          "'rootDirectory' + 'fileName'"), 0)
      else
        let codeStr := codeToAnalyze.getD ""
        match oracle (detectPrompt p codeStr filePath) with
        | .error e => (.error e, 1)
        | .ok generatedText =>
          match jsonRepair generatedText with
          | .error e => (.error e, 1)
          | .ok jsonString =>
            match jsonParse jsonString with
            | none => (.error jsonParseFailMsg, 1)
            | some bugAnalysis =>
              (.ok (detectResult p codeStr filePath bugAnalysis now), 1)

/-! ## The `generateCode` tool (`src/tools/generate-code.js`) -/

structure GenParams where
  description : String
  language : String
  framework : Option String
  includeTests : Option Bool

/-- The prompt template of `generateCode` (lines 13-62), braces of the
JSON skeleton written as escapes. -/
def generatePrompt (p : GenParams) : String :=
  "Generate a complete, production-ready project based on the following " ++
  "requirements:\n\n" ++
  "Description: " ++ p.description ++ "\n" ++
  "Language: " ++ p.language ++ "\n" ++
  (match p.framework with
   | some fw => if fw = "" then "" else "Framework: " ++ fw
   | none => "") ++ "\n" ++
  (if (p.includeTests.getD false) then "Include unit tests" else "No tests needed") ++
  "\n\n" ++
  "Please provide:\n" ++
  "1. Complete file structure (directory tree)\n" ++
  "2. All necessary files with complete code\n" ++
  "3. Package configuration files (package.json, requirements.txt, etc.)\n" ++
  "4. README.md with:\n   - Project description\n   - Installation instructions\n" ++
  "   - Setup commands\n   - How to run the project\n" ++
  "   - How to run tests (if applicable)\n   - Environment variables needed\n" ++
  "5. Any additional configuration files needed\n\n" ++
  "Format your response as JSON with the following structure:\n" ++
  "\x7b\n  \"projectName\": \"project-name\",\n  \"fileStructure\": \x7b\n" ++
  "    \"type\": \"directory\",\n    \"name\": \"root\",\n    \"children\": [...]\n" ++
  "  \x7d,\n  \"files\": [\n    \x7b\n      \"path\": \"relative/path/to/file\",\n" ++
  "      \"content\": \"file content here\",\n" ++
  "      \"description\": \"brief description of this file\"\n    \x7d\n  ],\n" ++
  "  \"setupInstructions\": \x7b\n    \"prerequisites\": [\"prerequisite 1\", " ++
  "\"prerequisite 2\"],\n    \"installCommands\": [\"command 1\", \"command 2\"],\n" ++
  "    \"runCommands\": [\"command to run the project\"],\n" ++
  "    \"testCommands\": [\"command to run tests\"],\n" ++
  "    \"environmentVariables\": [\n      \x7b\n        \"name\": \"VAR_NAME\",\n" ++
  "        \"description\": \"what this variable is for\",\n" ++
  "        \"example\": \"example value\"\n      \x7d\n    ]\n  \x7d,\n" ++
  "  \"additionalNotes\": \"any additional information or tips\"\n\x7d"

/-- The fallback regex `/\x7b[\s\S]*"projectName"[\s\S]*\x7d/` applied to
the raw model output (lines 118-120): does the key literal, followed
later by a `}`, occur after this position? -/
def patThenBrace (pat : List Char) : List Char → Bool
  | [] => false
  | c :: rest =>
    (startsWithL (c :: rest) pat && ((c :: rest).drop pat.length).contains '}') ||
    patThenBrace pat rest

/-- Leftmost start of the fallback match: the first `{` after which the
key literal and then a `}` occur. -/
def bmStart (pat : List Char) : List Char → Option Nat
  | [] => none
  | c :: rest =>
    if c = '{' && patThenBrace pat rest then some 0
    else (bmStart pat rest).map (· + 1)

/-- The fallback extraction: from the leftmost viable `{` to the last
`}` (the greedy tail of the regex). -/
def betterMatchL (cs : List Char) : Option (List Char) :=
  match bmStart "\"projectName\"".toList cs, lastIdxOf '}' cs with
  | some i, some j =>
    if i < j then some ((cs.drop i).take (j - i + 1)) else none
  | _, _ => none

/-- `v.length` of JS on a parsed value: defined for arrays and strings,
`undefined` otherwise. -/
def jsLength : JsonVal → Option JsonVal
  | .arr xs => some (.num (toString xs.length))
  | .str s => some (.num (toString s.length))
  | _ => none

/-- The `TypeError` message thrown by `projectData.files.length` when
`files` is absent (engine wording without the quoted property name). -/
def filesLengthTypeErr : String :=
  "Cannot read properties of undefined (reading length)"

/-- The success value of `generateCode` (lines 141-154): the result
object, or the `TypeError` from `projectData.files.length` when the
parsed object has no `files`. -/
def buildGenResult (projectData : JsonVal) (p : GenParams) :
    Except String JsonVal :=
  match jget projectData "files" with
  | none => .error filesLengthTypeErr
  | some .null => .error filesLengthTypeErr
  | some fv =>
    .ok (.obj
      ([("success", .bool true)] ++
       optField "projectName" (jget projectData "projectName") ++
       optField "fileStructure" (jget projectData "fileStructure") ++
       [("files", fv)] ++
       optField "setupInstructions" (jget projectData "setupInstructions") ++
       optField "additionalNotes" (jget projectData "additionalNotes") ++
       [("summary", .obj
         (optField "totalFiles" (jsLength fv) ++
          [("language", .str p.language)] ++
          optField "framework" ((p.framework).map JsonVal.str) ++
          optField "hasTests" ((p.includeTests).map JsonVal.bool)))]))

/-- The error thrown when both parsing attempts fail (lines 134-136). -/
def genParseFailMsg : String :=
  "Failed to parse AI response. The AI response was malformed. " ++
  "Please try again or simplify your request."

/-- The parsing pipeline of `generateCode` applied to the model response
(lines 80-154): repair/extract, parse; on a parse failure re-extract
from the original text with the `projectName` fallback regex and parse
once more; never another model call. -/
def genParse (generatedText : String) (p : GenParams) : Except String JsonVal :=
  match jsonRepair generatedText with
  | .error e => .error e
  | .ok jsonString =>
    match jsonParse jsonString with
    | some projectData => buildGenResult projectData p
    | none =>
      match betterMatchL generatedText.data with
      | some js2 =>
        match jsonParse (String.mk js2) with
        | some projectData => buildGenResult projectData p
        | none => .error genParseFailMsg
      | none => .error genParseFailMsg

/-- `generateCode(params)`: the whole tool; the oracle maps the index of
the `generateContent` call to its outcome, and the second component
counts the calls made (0 before the key check, 1 after — the single call
is never repeated, whatever the parsing outcome). -/
def generateCodeM (env : Env) (oracle : Nat → Except String String)
    (p : GenParams) : Except String JsonVal × Nat :=
  if !truthyS (env "GEMINI_API_KEY") then
    (.error "GEMINI_API_KEY environment variable is not set", 0)
  else
    match oracle 0 with
    | .error e => (.error e, 1)
    | .ok generatedText => (genParse generatedText p, 1)

/-! ## The `github-commit` tool (`src/tools/github-commit.js`) -/

/-- Module-level Octokit construction (lines 5-7): the authentication
token is read from the process environment, and nowhere else. -/
def octokitAuth (env : Env) : Option String :=
  env "GITHUB_TOKEN"

/-- Line 23: `owner = ownerParam || process.env.GITHUB_OWNER ||
'Eagleeye1811'`. -/
def resolveOwner (ownerParam : Option String) (env : Env) : String :=
  if truthyS ownerParam then ownerParam.getD ""
  else if truthyS (env "GITHUB_OWNER") then (env "GITHUB_OWNER").getD ""
  else "Eagleeye1811"

structure CommitParams where
  localPath : String
  repo : String
  branch : String
  message : Option String
  owner : Option String

/-- An error from the GitHub REST API: its HTTP status, if any, and its
message. -/
structure GhErr where
  status : Option Nat
  message : String

structure RepoInfo where
  pushPermission : Bool

/-- The GitHub REST API as an oracle: repository metadata, refs, and git
object creation are entirely delegated. -/
structure GithubApi where
  getRepo : String → String → Except GhErr RepoInfo
  getRef : String → Except GhErr String
  getCommit : String → Except GhErr String
  createBlob : String → Except GhErr String
  createTree : Option String → List (String × String) → Except GhErr String
  createCommit : String → String → Option String → Except GhErr String
  updateRef : String → String → Except GhErr Unit
  createRef : String → String → Except GhErr Unit

structure CommitResult where
  sha : String
  message : String
  url : String
  filesCommitted : Nat
deriving DecidableEq

/-- The blob-upload loop (lines 100-125): create a blob per scanned file
and pair its sha with the file's `relativePath`. -/
def uploadBlobs (api : GithubApi) :
    List (List (List Char) × String) → Except GhErr (List (String × String))
  | [] => .ok []
  | f :: fs =>
    match api.createBlob f.2 with
    | .error e => .error e
    | .ok sha =>
      match uploadBlobs api fs with
      | .error e => .error e
      | .ok rest => .ok ((renderPath f.1, sha) :: rest)

/-- `autoCommitAndPush(params)` (lines 16-202): validate the local path,
check the repository and write access, scan the files, then delegate
blob/tree/commit/ref creation to the API.  Errors are propagated as
their message strings (the outer catch only logs and rethrows). -/
def autoCommitAndPushM (env : Env) (disk : String → Option FsTree)
    (api : GithubApi) (now : String) (params : CommitParams) :
    Except String CommitResult :=
  let owner := resolveOwner params.owner env
  let repo := params.repo
  let branch := params.branch
  if (disk params.localPath).isNone then
    .error ("Path does not exist: " ++ params.localPath)
  else
    match api.getRepo owner repo with
    | .error e =>
      if e.status = some 404 then
        .error ("Repository not found: " ++ owner ++ "/" ++ repo ++
          "\n\n💡 Create it first at: https://github.com/new\n" ++
          "Or check the repository name and owner are correct.")
      else if e.status = some 401 then
        .error "GitHub authentication failed. Check your GITHUB_TOKEN in .env file."
      else .error e.message
    | .ok repoData =>
      if !repoData.pushPermission then
        .error ("No write access to repository: " ++ owner ++ "/" ++ repo ++
          "\n\n💡 Solutions:\n1. Check your GitHub token has 'repo' scope\n" ++
          "2. Verify you own this repository or have write access\n" ++
          "3. Create a new token: https://github.com/settings/tokens")
      else
        let message := match params.message with
          | some m => if m = "" then "Auto-commit: " ++ now else m
          | none => "Auto-commit: " ++ now
        let files := scan ((disk params.localPath).getD .nil) []
        if files.length = 0 then .error "No files found to commit"
        else
          let refState : Except String (Option String × Option String × Bool) :=
            match api.getRef ("heads/" ++ branch) with
            | .ok commitSha =>
              match api.getCommit commitSha with
              | .ok treeSha => .ok (some commitSha, some treeSha, false)
              | .error e =>
                if e.status = some 404 || containsSub e.message "empty" then
                  .ok (none, none, true)
                else .error e.message
            | .error e =>
              if e.status = some 404 || containsSub e.message "empty" then
                .ok (none, none, true)
              else .error e.message
          match refState with
          | .error e => .error e
          | .ok (currentCommitSha, baseTreeSha, isEmptyRepo) =>
            match uploadBlobs api files with
            | .error e => .error e.message
            | .ok blobs =>
              match api.createTree baseTreeSha blobs with
              | .error e => .error e.message
              | .ok newTreeSha =>
                match api.createCommit message newTreeSha currentCommitSha with
                | .error e => .error e.message
                | .ok newCommitSha =>
                  let push : Except GhErr Unit :=
                    if isEmptyRepo then
                      api.createRef ("refs/heads/" ++ branch) newCommitSha
                    else api.updateRef ("heads/" ++ branch) newCommitSha
                  match push with
                  | .error e => .error e.message
                  | .ok _ =>
                    .ok ⟨newCommitSha, message,
                      "https://github.com/" ++ owner ++ "/" ++ repo ++
                        "/commit/" ++ newCommitSha,
                      files.length⟩

/-! ## The backend formatting helpers
(`src/chatbot/web/backend-server.js` lines 191-413) -/

/-- A dynamic property is structurally smaller than its object (used
only to justify the recursion of `formatFileTree` below). -/
theorem jget_sizeOf_lt {v w : JsonVal} {k : String} (h : jget v k = some w) :
    sizeOf w < sizeOf v := by
  cases v with
  | obj fields =>
    rw [jget] at h
    rcases Option.map_eq_some'.1 h with ⟨e, he, hw⟩
    have h1 := List.sizeOf_lt_of_mem (List.mem_of_find?_eq_some he)
    have h2 : sizeOf w < sizeOf e := by
      rcases e with ⟨k2, v2⟩
      subst hw
      simp only [Prod.mk.sizeOf_spec]
      omega
    have h3 : sizeOf fields < sizeOf (JsonVal.obj fields) := by
      simp only [JsonVal.obj.sizeOf_spec]
      omega
    omega
  | null => simp [jget] at h
  | bool b => simp [jget] at h
  | num l => simp [jget] at h
  | str s => simp [jget] at h
  | arr xs => simp [jget] at h

/-- JS strict equality `v === 'lit'` of a dynamic value with a string
literal: true exactly for the same string value. -/
def jsEqStr (v : Option JsonVal) (lit : String) : Bool :=
  match v with
  | some (.str t) => t = lit
  | _ => false

set_option linter.unusedVariables false in
mutual

/-- `formatFileTree(node, prefix, isLast)` (lines 378-397).  Falsy nodes
render as the empty string; a node whose `name` is not the string `root`
contributes one connector line; array-valued nonempty `children` are
rendered recursively.  (A truthy non-array `children` with a positive
`length` — only a string — would throw in JS and land in the caller's
catch; here it renders as no children.  No claim's statement reaches
that corner.) -/
def formatFileTree (node : Option JsonVal) (pre : String) (isLast : Bool) :
    String :=
  if h : truthy node = false then ""
  else
    let connector := if isLast then "└── " else "├── "
    let nameV := jgetOpt node "name"
    let line :=
      if !jsEqStr nameV "root" then pre ++ connector ++ jsShow nameV ++ "\n"
      else ""
    let kids :=
      match h2 : jgetOpt node "children" with
      | some (.arr cs) =>
        if cs.length > 0 then
          let newPre :=
            if jsEqStr nameV "root" then ""
            else pre ++ (if isLast then "    " else "│   ")
          fmtKids cs newPre 0 cs.length
        else ""
      | _ => ""
    line ++ kids
termination_by (sizeOf node, 0)
decreasing_by
  apply Prod.Lex.left
  cases node with
  | none => simp [truthy] at h
  | some v =>
    have hlt : sizeOf (JsonVal.arr cs) < sizeOf v := by
      apply jget_sizeOf_lt
      simpa [jgetOpt] using h2
    simp at hlt ⊢
    omega

/-- The `forEach` over the children, carrying the index for the
`childIsLast` test. -/
def fmtKids (cs : List JsonVal) (pre : String) (i total : Nat) : String :=
  match cs with
  | [] => ""
  | c :: rest =>
    formatFileTree (some c) pre (decide (i = total - 1)) ++
      fmtKids rest pre (i + 1) total
termination_by (sizeOf cs, 1)
decreasing_by
  all_goals
    apply Prod.Lex.left
    have h0 : 0 < sizeOf rest := by cases rest <;> simp_arith
    simp only [Option.some.sizeOf_spec, List.cons.sizeOf_spec]
    omega

end

/-- JSON string escaping as `JSON.stringify` performs it (the control
characters that occur in this development). -/
def escapeJson (s : String) : String :=
  String.mk (s.data.flatMap (fun c =>
    if c = '"' then ['\\', '"']
    else if c = '\\' then ['\\', '\\']
    else if c = '\n' then ['\\', 'n']
    else if c = '\t' then ['\\', 't']
    else if c = '\r' then ['\\', 'r']
    else [c]))

def pad (n : Nat) : String :=
  String.mk (List.replicate n ' ')

/-- `JSON.stringify(v, null, 2)` at nesting depth `ind`. -/
def jsonStringify (v : JsonVal) (ind : Nat) : String :=
  match v with
  | .null => "null"
  | .bool b => if b then "true" else "false"
  | .num lit => lit
  | .str s => "\"" ++ escapeJson s ++ "\""
  | .arr [] => "[]"
  | .arr xs =>
    "[\n" ++
      String.intercalate ",\n"
        (xs.attach.map (fun e => pad (ind + 2) ++ jsonStringify e.1 (ind + 2))) ++
      "\n" ++ pad ind ++ "]"
  | .obj [] => "\x7b\x7d"
  | .obj fs =>
    "\x7b\n" ++
      String.intercalate ",\n"
        (fs.attach.map (fun e =>
          pad (ind + 2) ++ "\"" ++ escapeJson e.1.1 ++ "\": " ++
            jsonStringify e.1.2 (ind + 2))) ++
      "\n" ++ pad ind ++ "\x7d"
termination_by sizeOf v
decreasing_by
  · have h := List.sizeOf_lt_of_mem e.2
    simp only [JsonVal.arr.sizeOf_spec]
    omega
  · have h := List.sizeOf_lt_of_mem e.2
    have h2 : sizeOf e.1.2 < sizeOf e.1 := by
      rcases e.1 with ⟨k2, v2⟩
      simp only [Prod.mk.sizeOf_spec]
      omega
    simp only [JsonVal.obj.sizeOf_spec]
    omega

/-- `getFileLanguage(filename)` (lines 399-413). -/
def getFileLanguage (filename : String) : String :=
  let ext := String.mk ((filename.data.splitOn '.').getLast?.getD [])
  if ext = "js" then "javascript"
  else if ext = "ts" then "typescript"
  else if ext = "py" then "python"
  else if ext = "html" then "html"
  else if ext = "css" then "css"
  else if ext = "json" then "json"
  else if ext = "md" then "markdown"
  else if ext = "yml" then "yaml"
  else if ext = "yaml" then "yaml"
  else ""

/-- One generated-file preview (the `forEach` body of lines 249-260).
Non-string `path`/`content` values are interpolated before slicing
(JS would throw a `TypeError` into the caller's catch instead; no
claim's statement reaches that corner). -/
def genFilePreview (file : JsonVal) : String :=
  let pathS := jsShow (jget file "path")
  let contentS := jsShow (jget file "content")
  "### " ++ pathS ++ "\n" ++
  (if truthy (jget file "description") then
    "*" ++ jsShow (jget file "description") ++ "*\n\n"
   else "") ++
  "```" ++ getFileLanguage pathS ++ "\n" ++
  String.mk (contentS.data.take 300) ++
  (if contentS.data.length > 300 then "\n... (truncated)" else "") ++
  "\n```\n\n"

/-- A bullet list `• x\n` per element. -/
def bulletList (xs : List JsonVal) : String :=
  String.join (xs.map (fun x => "• " ++ jsShowVal x ++ "\n"))

/-- A command list `x\n` per element. -/
def cmdList (xs : List JsonVal) : String :=
  String.join (xs.map (fun x => jsShowVal x ++ "\n"))

/-- The setup-instructions section (lines 268-294). -/
def genSetupSection (si : Option JsonVal) : String :=
  if !truthy si then ""
  else
    "## 🚀 Setup Instructions\n\n" ++
    (match jgetOpt si "prerequisites" with
     | some (.arr ps) =>
       if ps.length > 0 then "**Prerequisites:**\n" ++ bulletList ps ++ "\n"
       else ""
     | _ => "") ++
    (match jgetOpt si "installCommands" with
     | some (.arr cmds) =>
       if cmds.length > 0 then "**Install:**\n```bash\n" ++ cmdList cmds ++ "```\n\n"
       else ""
     | _ => "") ++
    (match jgetOpt si "runCommands" with
     | some (.arr cmds) =>
       if cmds.length > 0 then "**Run:**\n```bash\n" ++ cmdList cmds ++ "```\n\n"
       else ""
     | _ => "")

/-- The body of a successful code-generation reply, after its fixed
heading (lines 235-300). -/
def genBody (data : JsonVal) : String :=
  "**Project Name:** " ++ jsShow (jget data "projectName") ++ "\n\n" ++
  "**Total Files:** " ++
    jsShow (jsOr (jgetOpt (jget data "summary") "totalFiles")
      (jsOr ((jget data "files").bind jsLength) (some (.num "0")))) ++ "\n" ++
  "**Language:** " ++
    jsShow (jsOr (jgetOpt (jget data "summary") "language")
      (some (.str "N/A"))) ++ "\n\n" ++
  "## 📁 File Structure\n\n```\n" ++
  formatFileTree (jget data "fileStructure") "" true ++
  "```\n\n" ++
  "## 📄 Generated Files\n\n" ++
  (match jget data "files" with
   | some (.arr fs) =>
     if fs.length > 0 then
       String.join ((fs.take 3).map genFilePreview) ++
       (if fs.length > 3 then
         "*... and " ++ toString (fs.length - 3) ++ " more files*\n\n"
        else "")
     else ""
   | _ => "") ++
  genSetupSection (jget data "setupInstructions") ++
  (if truthy (jget data "additionalNotes") then
    "## 📝 Additional Notes\n\n" ++ jsShow (jget data "additionalNotes") ++ "\n"
   else "")

/-- `formatCodeGenerationResponse(data)` (lines 230-301). -/
def formatCodeGenerationResponse (data : JsonVal) : String :=
  if !truthy (jget data "success") then "❌ Code generation failed."
  else "# 🎉 Project Generated Successfully!\n\n" ++ genBody data

/-- One issue block of the bug report (the `forEach` body of lines
328-343), carrying the index and the outer `data.language`. -/
def bugIssueBlock (lang : Option JsonVal) (idx : Nat) (issue : JsonVal) : String :=
  let icon :=
    if jsEqStr (jget issue "severity") "critical" then "🔴"
    else if jsEqStr (jget issue "severity") "warning" then "⚠️"
    else "ℹ️"
  "### " ++ icon ++ " Issue " ++ toString (idx + 1) ++ ": " ++
    jsShow (jget issue "type") ++ "\n" ++
  "**Severity:** " ++ jsShow (jget issue "severity") ++ "\n" ++
  "**Line:** " ++ jsShow (jget issue "line") ++ "\n\n" ++
  "**Description:** " ++ jsShow (jget issue "description") ++ "\n\n" ++
  (if truthy (jget issue "codeSnippet") then
    "**Code:**\n```" ++ jsShow lang ++ "\n" ++
      jsShow (jget issue "codeSnippet") ++ "\n```\n\n"
   else "") ++
  "**Suggestion:** " ++ jsShow (jget issue "suggestion") ++ "\n\n---\n\n"

def bugIssueList (lang : Option JsonVal) (idx : Nat) : List JsonVal → String
  | [] => ""
  | issue :: rest => bugIssueBlock lang idx issue ++ bugIssueList lang (idx + 1) rest

/-- The body of a bug-detection reply, after its fixed heading
(lines 308-353). -/
def bugBody (data : JsonVal) : String :=
  (if truthy (jget data "fileName") then
    "**File:** " ++ jsShow (jget data "fileName") ++ "\n"
   else "") ++
  "**Language:** " ++ jsShow (jget data "language") ++ "\n" ++
  "**Lines of Code:** " ++ jsShow (jget data "linesOfCode") ++ "\n\n" ++
  (if truthy (jget data "summary") then
    "## 📊 Summary\n\n" ++
    "• **Total Issues:** " ++ jsShow (jgetOpt (jget data "summary") "totalIssues") ++ "\n" ++
    "• **Critical:** " ++ jsShow (jgetOpt (jget data "summary") "critical") ++ " 🔴\n" ++
    "• **Warning:** " ++ jsShow (jgetOpt (jget data "summary") "warning") ++ " ⚠️\n" ++
    "• **Info:** " ++ jsShow (jgetOpt (jget data "summary") "info") ++ " ℹ️\n\n"
   else "") ++
  (match jget data "issues" with
   | some (.arr issues) =>
     if issues.length > 0 then
       "## 🔍 Issues Found\n\n" ++ bugIssueList (jget data "language") 0 issues
     else "## ✅ No Issues Found!\n\nYour code looks good!\n\n"
   | _ => "## ✅ No Issues Found!\n\nYour code looks good!\n\n") ++
  (if truthy (jget data "overallAssessment") then
    "## 📋 Overall Assessment\n\n" ++ jsShow (jget data "overallAssessment") ++ "\n"
   else "")

/-- `formatBugDetectionResponse(data)` (lines 303-354). -/
def formatBugDetectionResponse (data : JsonVal) : String :=
  if !truthy (jget data "success") then "❌ Bug detection failed."
  else "# 🐛 Bug Analysis Results\n\n" ++ bugBody data

/-- The body of a commit reply, after its fixed heading (lines
369-375). -/
def commitBody (data : JsonVal) : String :=
  "**Commit SHA:** `" ++ jsShow (jget data "sha") ++ "`\n" ++
  "**Message:** " ++ jsShow (jget data "message") ++ "\n" ++
  "**Files Committed:** " ++ jsShow (jget data "filesCommitted") ++ "\n\n" ++
  "**View commit:** [" ++ jsShow (jget data "url") ++ "](" ++
    jsShow (jget data "url") ++ ")\n"

/-- `formatGitHubCommitResponse(data)` (lines 364-376). -/
def formatGitHubCommitResponse (data : JsonVal) : String :=
  if !truthy (jget data "success") then "❌ GitHub commit failed."
  else "# 🚀 Successfully Committed to GitHub!\n\n" ++ commitBody data

/-- `formatBestPracticesResponse(content)` (lines 356-362): strings pass
through unchanged, anything else is stringified. -/
def formatBestPracticesResponse : String ⊕ JsonVal → String
  | .inl s => s
  | .inr v => jsonStringify v 0

/-- A tool-call result as the backend receives it: an MCP envelope with
a `content` array of texts, a bare string, or another structured
value. -/
inductive RawResult : Type where
  | str (s : String) : RawResult
  | mcp (texts : List String) : RawResult
  | jsonv (v : JsonVal) : RawResult

/-- The dispatch of `formatToolResponse` after `content` has been
extracted (lines 199-223): parse string content as JSON — returning it
unchanged when that fails — and format by tool name. -/
def formatContent (toolName : String) (content : String ⊕ JsonVal) : String :=
  let data : Option JsonVal :=
    match content with
    | .inl s => jsonParse s
    | .inr v => some v
  match data with
  | none =>
    (match content with
     | .inl s => s
     | .inr _ => "")
  | some d =>
    if toolName = "generate-code" then formatCodeGenerationResponse d
    else if toolName = "detect-bugs" then formatBugDetectionResponse d
    else if toolName = "check-best-practices" then formatBestPracticesResponse content
    else if toolName = "github-commit" then formatGitHubCommitResponse d
    else jsonStringify d 0

/-- `formatToolResponse(toolName, result)` (lines 191-228): unwrap the
first `content` text when the result is an MCP envelope.  An empty
`content` array makes `result.content[0].text` throw, and the
function's catch returns its fixed apology string — the only reachable
catch case in the model, whose formatters are total. -/
def formatToolResponse (toolName : String) (result : RawResult) : String :=
  match result with
  | .mcp [] => "Response received but formatting failed. Check console for details."
  | .mcp (t :: _) => formatContent toolName (.inl t)
  | .str s => formatContent toolName (.inl s)
  | .jsonv v => formatContent toolName (.inr v)

/-- The `generate-code` MCP tool handler of `src/server.js` lines 45-59:
wrap the tool outcome as an envelope — the stringified result on
success, `Failed to generate code: ...` on a caught error.  Neither
carries an error tag. -/
def mcpGenerateCodeHandler (outcome : Except String JsonVal) : RawResult :=
  match outcome with
  | .ok data => .mcp [jsonStringify data 0]
  | .error e => .mcp ["Failed to generate code: " ++ e]

/-- Lines 121-165 of the backend message handler: a rejected tool call
becomes an error-tagged reply; a resolved one becomes a success-tagged
reply carrying the formatted text and, for `generate-code`, the parsed
`projectData` when the first content text parses as JSON. -/
def wsToolReply (toolName : String) (outcome : Except String RawResult) : WsReply :=
  match outcome with
  | .error e => ⟨"error", "Error executing tool: " ++ e, none⟩
  | .ok result =>
    let formatted := formatToolResponse toolName result
    let rawData : Option JsonVal :=
      if toolName = "generate-code" then
        match result with
        | .mcp (t :: _) => if t ≠ "" then jsonParse t else none
        | _ => none
      else none
    ⟨"success", formatted, rawData⟩

/-- A string whose first character is neither whitespace nor a possible
first character of a JSON value ( `\x7b`, `[`, `"`, `t`, `f`, `n`, `-`
or a digit).  Such a string can never be accepted by `jsonParse`. -/
def badHead (s : String) : Bool :=
  match s.data with
  | [] => false
  | c :: _ =>
    !(isWs c) && !(c == '{') && !(c == '[') && !(c == '"') && !(c == 't') &&
      !(c == 'f') && !(c == 'n') && !(c == '-') && !(isDigit c)

/-! ## Theorems

Everything below is proof; every definition of the embedding stands
above this line. -/

/-! Lemmas characterising `firstIdxOf` / `lastIdxOf`. -/

theorem firstIdxOf_spec {c : Char} :
    ∀ {cs : List Char} {i : Nat}, firstIdxOf c cs = some i →
      cs[i]? = some c ∧ ∀ m, m < i → cs[m]? ≠ some c := by
  intro cs
  induction cs with
  | nil => intro i h; simp [firstIdxOf] at h
  | cons a as ih =>
    intro i h
    by_cases ha : a = c
    · simp [firstIdxOf, ha] at h
      subst h
      constructor
      · simp [ha]
      · intro m hm; omega
    · simp [firstIdxOf, ha] at h
      obtain ⟨k, hk, rfl⟩ := h
      obtain ⟨h1, h2⟩ := ih hk
      constructor
      · simpa using h1
      · intro m hm
        cases m with
        | zero => simpa using ha
        | succ m' =>
          have := h2 m' (by omega)
          simpa using this

theorem firstIdxOf_of_mem {c : Char} :
    ∀ {cs : List Char} {i : Nat}, cs[i]? = some c →
      ∃ k, firstIdxOf c cs = some k ∧ k ≤ i := by
  intro cs
  induction cs with
  | nil => intro i h; simp at h
  | cons a as ih =>
    intro i h
    by_cases ha : a = c
    · exact ⟨0, by simp [firstIdxOf, ha], by omega⟩
    · cases i with
      | zero => simp at h; exact absurd h ha
      | succ i' =>
        simp at h
        obtain ⟨k, hk, hle⟩ := ih h
        exact ⟨k + 1, by simp [firstIdxOf, ha, hk], by omega⟩

theorem lastIdxOf_eq_none {c : Char} :
    ∀ {cs : List Char}, lastIdxOf c cs = none → ∀ m : Nat, cs[m]? ≠ some c := by
  intro cs
  induction cs with
  | nil => intro _ m; simp
  | cons a as ih =>
    intro h m
    unfold lastIdxOf at h
    cases hrec : lastIdxOf c as with
    | some k => rw [hrec] at h; simp at h
    | none =>
      rw [hrec] at h
      by_cases ha : a = c
      · simp [ha] at h
      · cases m with
        | zero => simpa using ha
        | succ m' => simpa using ih hrec m'

theorem lastIdxOf_spec {c : Char} :
    ∀ {cs : List Char} {j : Nat}, lastIdxOf c cs = some j →
      cs[j]? = some c ∧ ∀ m, j < m → cs[m]? ≠ some c := by
  intro cs
  induction cs with
  | nil => intro j h; simp [lastIdxOf] at h
  | cons a as ih =>
    intro j h
    unfold lastIdxOf at h
    cases hrec : lastIdxOf c as with
    | some k =>
      rw [hrec] at h
      simp at h
      subst h
      obtain ⟨h1, h2⟩ := ih hrec
      constructor
      · simpa using h1
      · intro m hm
        cases m with
        | zero => omega
        | succ m' =>
          have := h2 m' (by omega)
          simpa using this
    | none =>
      rw [hrec] at h
      by_cases ha : a = c
      · simp [ha] at h
        subst h
        constructor
        · simp [ha]
        · intro m hm
          cases m with
          | zero => omega
          | succ m' => simpa using lastIdxOf_eq_none hrec m'
      · simp [ha] at h

theorem lastIdxOf_of_mem {c : Char} :
    ∀ {cs : List Char} {j : Nat}, cs[j]? = some c →
      ∃ k, lastIdxOf c cs = some k ∧ j ≤ k := by
  intro cs
  induction cs with
  | nil => intro j h; simp at h
  | cons a as ih =>
    intro j h
    cases hrec : lastIdxOf c as with
    | some k => exact ⟨k + 1, by simp [lastIdxOf, hrec], by
        cases j with
        | zero => omega
        | succ j' =>
          simp at h
          obtain ⟨k2, hk2, hle⟩ := ih h
          rw [hrec] at hk2
          simp at hk2
          omega⟩
    | none =>
      cases j with
      | zero =>
        simp at h
        exact ⟨0, by simp [lastIdxOf, hrec, h], by omega⟩
      | succ j' =>
        simp at h
        obtain ⟨k2, hk2, _⟩ := ih h
        rw [hrec] at hk2
        simp at hk2

/-- Exactly when some `}` follows some `{`, `extractJson` succeeds, and it
returns the span from the first `{` to the last `}`. -/
theorem extractJson_characterisation (t : List Char) :
    (extractJson t = none ↔
      ¬ ∃ i j : Nat, i < j ∧ t[i]? = some '{' ∧ t[j]? = some '}') ∧
    (∀ i j : Nat, i < j → t[i]? = some '{' → t[j]? = some '}' →
      ∃ a b : Nat, a ≤ i ∧ j ≤ b ∧ t[a]? = some '{' ∧ t[b]? = some '}' ∧
        (∀ m : Nat, m < a → t[m]? ≠ some '{') ∧
        (∀ m : Nat, b < m → t[m]? ≠ some '}') ∧
        extractJson t = some ((t.drop a).take (b - a + 1))) := by
  constructor
  · constructor
    · intro hnone hpair
      obtain ⟨i, j, hij, hi, hj⟩ := hpair
      obtain ⟨a, ha, hai⟩ := firstIdxOf_of_mem hi
      obtain ⟨b, hb, hjb⟩ := lastIdxOf_of_mem hj
      have hab : a < b := by omega
      simp [extractJson, ha, hb, hab] at hnone
    · intro hnopair
      unfold extractJson
      cases ha : firstIdxOf '{' t with
      | none => rfl
      | some a =>
        cases hb : lastIdxOf '}' t with
        | none => rfl
        | some b =>
          by_cases hab : a < b
          · exfalso
            exact hnopair ⟨a, b, hab, (firstIdxOf_spec ha).1, (lastIdxOf_spec hb).1⟩
          · simp [hab]
  · intro i j hij hi hj
    obtain ⟨a, ha, hai⟩ := firstIdxOf_of_mem hi
    obtain ⟨b, hb, hjb⟩ := lastIdxOf_of_mem hj
    have hab : a < b := by omega
    exact ⟨a, b, hai, hjb, (firstIdxOf_spec ha).1, (lastIdxOf_spec hb).1,
      (firstIdxOf_spec ha).2, (lastIdxOf_spec hb).2,
      by simp [extractJson, ha, hb, hab]⟩

/-- C4: the JSON-repair step applied to a language-model response first
strips a leading ` ```json ` or ` ``` ` fence and a trailing ` ``` ` fence
and trims whitespace (`stripFences`), then regex-extracts the first
balanced-looking object, i.e. the span from the first `{` to the last `}`
of the remaining text; when the remaining text has no object-shaped
substring (no `}` after a `{`) the operation fails with exactly the error
`No valid JSON found in response`. -/
theorem json_repair_extracts_first_object_or_fails (s : String) :
    (jsonRepair s = .error "No valid JSON found in response" ↔
      ¬ ∃ i j : Nat, i < j ∧ (stripFences s.data)[i]? = some '{' ∧
        (stripFences s.data)[j]? = some '}') ∧
    (∀ i j : Nat, i < j → (stripFences s.data)[i]? = some '{' →
        (stripFences s.data)[j]? = some '}' →
      ∃ a b : Nat, a ≤ i ∧ j ≤ b ∧
        (∀ m : Nat, m < a → (stripFences s.data)[m]? ≠ some '{') ∧
        (∀ m : Nat, b < m → (stripFences s.data)[m]? ≠ some '}') ∧
        jsonRepair s =
          .ok (String.mk (((stripFences s.data).drop a).take (b - a + 1)))) := by
  obtain ⟨hnone, hsome⟩ := extractJson_characterisation (stripFences s.data)
  constructor
  · rw [← hnone]
    unfold jsonRepair
    cases h : extractJson (stripFences s.data) <;> simp [h]
  · intro i j hij hi hj
    obtain ⟨a, b, hai, hjb, _, _, h1, h2, hex⟩ := hsome i j hij hi hj
    exact ⟨a, b, hai, hjb, h1, h2, by simp [jsonRepair, hex]⟩

/-- Witness for C4 at the concrete response
`" ```json\n\x7b\"ok\": 1\x7d\n``` "`: the stripped text is
`\x7b"ok": 1\x7d`, whose first `{` sits at index 0 and last `}` at
index 9, and the repair returns exactly that span. -/
theorem json_repair_witness :
    (0 : Nat) < 8 ∧
    (stripFences (" ```json\n\x7b\"ok\": 1\x7d\n``` " : String).data)[0]? = some '{' ∧
    (stripFences (" ```json\n\x7b\"ok\": 1\x7d\n``` " : String).data)[8]? = some '}' ∧
    ∃ a b : Nat, a ≤ 0 ∧ 8 ≤ b ∧
      (∀ m : Nat, m < a →
        (stripFences (" ```json\n\x7b\"ok\": 1\x7d\n``` " : String).data)[m]? ≠ some '{') ∧
      (∀ m : Nat, b < m →
        (stripFences (" ```json\n\x7b\"ok\": 1\x7d\n``` " : String).data)[m]? ≠ some '}') ∧
      jsonRepair " ```json\n\x7b\"ok\": 1\x7d\n``` " =
        .ok (String.mk
          (((stripFences (" ```json\n\x7b\"ok\": 1\x7d\n``` " : String).data).drop a).take
            (b - a + 1))) :=
  ⟨by omega, by decide, by decide,
    (json_repair_extracts_first_object_or_fails " ```json\n\x7b\"ok\": 1\x7d\n``` ").2
      0 8 (by omega) (by decide) (by decide)⟩

/-- C1: whenever a request resolves to a tool of the table and the
extracted parameter map leaves at least one required field missing
(absent or empty), the backend replies with an error-tagged response
whose text is exactly `Missing required parameters: ` followed by the
missing names — a name is listed iff it is a required field of the tool
that is missing, so every missing required field appears and no other
field name does. -/
theorem missing_params_error_reply
    (toolName : String) (config : ToolConfig)
    (params : String → Option String)
    (hconfig : lookupTool toolName = some config)
    (hmiss : ∃ f ∈ config.requiredParams, paramMissing params f) :
    validationReply toolName params =
      some ⟨"error",
        "Missing required parameters: " ++
          String.intercalate ", "
            (config.requiredParams.filter (fun p => paramMissing params p)) ++
          "\n\nPlease provide all required information.", none⟩ ∧
    ∀ f : String,
      f ∈ config.requiredParams.filter (fun p => paramMissing params p) ↔
        (f ∈ config.requiredParams ∧ paramMissing params f) := by
  have hne : config.requiredParams.filter (fun p => paramMissing params p) ≠ [] := by
    obtain ⟨f, hf, hpm⟩ := hmiss
    intro hempty
    have : f ∈ config.requiredParams.filter (fun p => paramMissing params p) :=
      List.mem_filter.2 ⟨hf, hpm⟩
    rw [hempty] at this
    simp at this
  constructor
  · unfold validationReply validateParams
    rw [hconfig]
    simp only [Option.getD_some]
    rw [if_neg (by simpa [List.isEmpty_iff] using hne)]
  · intro f
    exact List.mem_filter

/-- Witness for C1: a `github-commit` request whose extracted map carries
`localPath`, `branch` and `message` but no `repo` is answered with an
error-tagged reply listing exactly `repo`. -/
theorem missing_params_error_reply_witness :
    validationReply "github-commit"
        (fun f => if f = "localPath" then some "/tmp/proj"
                  else if f = "branch" then some "main"
                  else if f = "message" then some "first commit" else none) =
      some ⟨"error",
        "Missing required parameters: " ++ String.intercalate ", " ["repo"] ++
          "\n\nPlease provide all required information.", none⟩ := by
  have h := missing_params_error_reply "github-commit"
    ⟨["commit", "push", "github", "git", "upload"],
     ["localPath", "repo", "branch", "message"], []⟩
    (fun f => if f = "localPath" then some "/tmp/proj"
              else if f = "branch" then some "main"
              else if f = "message" then some "first commit" else none)
    (by decide) (by decide)
  exact h.1

/-! Lemmas about the file-system tree: how `setEntry` interacts with
`getEntry` and `scan`. -/

theorem scan_entry (n : List Char) (x r : FsTree) (pre : List (List Char)) :
    scan (.entry n x r) pre = contrib n x pre ++ scan r pre := by
  cases x <;> rfl

theorem getEntry_setEntry_self (t : FsTree) (n : List Char) (x : FsTree) :
    getEntry (setEntry t n x) n = some x := by
  induction t with
  | file c => simp [setEntry, getEntry]
  | nil => simp [setEntry, getEntry]
  | entry m c r ihc ihr =>
    by_cases h : m = n
    · simp [setEntry, h, getEntry]
    · simp [setEntry, h, getEntry, ihr]

theorem getEntry_setEntry_ne (t : FsTree) {n m : List Char} (x : FsTree)
    (h : m ≠ n) : getEntry (setEntry t n x) m = getEntry t m := by
  have hnm : ¬ n = m := fun he => h he.symm
  induction t with
  | file c => simp [setEntry, getEntry, hnm]
  | nil => simp [setEntry, getEntry, hnm]
  | entry m' c r ihc ihr =>
    by_cases h2 : m' = n
    · rw [show setEntry (FsTree.entry m' c r) n x = FsTree.entry m' x r by
        simp [setEntry, h2]]
      have h4 : ¬ m' = m := by rw [h2]; exact hnm
      simp [getEntry, h4]
    · rw [show setEntry (FsTree.entry m' c r) n x =
          FsTree.entry m' c (setEntry r n x) by simp [setEntry, h2]]
      by_cases h3 : m' = m
      · simp [getEntry, h3]
      · simp [getEntry, h3, ihr]

theorem scan_setEntry_fresh {t : FsTree} {n : List Char} (x : FsTree)
    (h : getEntry t n = none) (pre : List (List Char)) :
    scan (setEntry t n x) pre = scan t pre ++ contrib n x pre := by
  induction t with
  | file c => simp [setEntry, scan_entry, scan]
  | nil => simp [setEntry, scan_entry, scan]
  | entry m c r ihc ihr =>
    have hm : m ≠ n := by
      intro he
      simp [getEntry, he] at h
    have hr : getEntry r n = none := by simpa [getEntry, hm] using h
    simp [setEntry, hm, scan_entry, ihr hr, List.append_assoc]

theorem scan_setEntry_existing {t : FsTree} {n : List Char} {sub : FsTree}
    (x : FsTree) (h : getEntry t n = some sub) (pre : List (List Char)) :
    ∃ L R, scan t pre = L ++ (contrib n sub pre ++ R) ∧
      scan (setEntry t n x) pre = L ++ (contrib n x pre ++ R) := by
  induction t with
  | file c => simp [getEntry] at h
  | nil => simp [getEntry] at h
  | entry m c r ihc ihr =>
    by_cases hm : m = n
    · subst hm
      have hc : c = sub := by simpa [getEntry] using h
      subst hc
      exact ⟨[], scan r pre, by simp [scan_entry], by simp [setEntry, scan_entry]⟩
    · have hr : getEntry r n = some sub := by simpa [getEntry, hm] using h
      obtain ⟨L, R, h1, h2⟩ := ihr hr
      exact ⟨contrib m c pre ++ L, R,
        by simp [scan_entry, h1, List.append_assoc],
        by simp [setEntry, hm, scan_entry, h2, List.append_assoc]⟩

theorem setEntry_shape (t : FsTree) (n : List Char) (x : FsTree) :
    ∃ a b r, setEntry t n x = .entry a b r := by
  cases t with
  | file c => exact ⟨n, x, .file c, rfl⟩
  | nil => exact ⟨n, x, .nil, rfl⟩
  | entry m c r =>
    by_cases h : m = n
    · exact ⟨m, x, r, by simp [setEntry, h]⟩
    · exact ⟨m, c, setEntry r n x, by simp [setEntry, h]⟩

theorem canAdd_cons_dir {t sub : FsTree} {d e : List Char} {q : List (List Char)}
    (hget : getEntry t d = some sub) (hnf : ∀ c0, sub ≠ .file c0) :
    canAdd t (d :: e :: q) = canAdd sub (e :: q) := by
  cases sub with
  | file c0 => exact absurd rfl (hnf c0)
  | nil => simp [canAdd, hget]
  | entry a b r => simp [canAdd, hget]

theorem writeInDir_cons_dir {t sub : FsTree} {d : List Char}
    {ds : List (List Char)} {fn : List Char} {c : String}
    (hd : d ≠ []) (hget : getEntry t d = some sub)
    (hnf : ∀ c0, sub ≠ .file c0) :
    writeInDir t (d :: ds) fn c =
      (writeInDir sub ds fn c).map (fun s2 => setEntry t d s2) := by
  cases sub with
  | file c0 => exact absurd rfl (hnf c0)
  | nil => simp [writeInDir, hd, hget]
  | entry a b r => simp [writeInDir, hd, hget]

theorem contrib_dir {d : List Char} {x : FsTree} (hd2 : d ∉ ignoreListC)
    (hnf : ∀ c0, x ≠ .file c0) (pre : List (List Char)) :
    contrib d x pre = scan x (pre ++ [d]) := by
  cases x with
  | file c0 => exact absurd rfl (hnf c0)
  | nil => simp [contrib, hd2, scan]
  | entry a b r => simp [contrib, hd2]

/-- Writing a fresh path below an empty directory builds a chain whose
scan is exactly the one written file. -/
theorem write_nil_chain {fn : List Char} {c : String}
    (hfn : fn ≠ []) (hfn2 : fn ∉ ignoreListC) :
    ∀ (ds : List (List Char)), (∀ d ∈ ds, d ≠ [] ∧ d ∉ ignoreListC) →
    ∃ t', writeInDir FsTree.nil ds fn c = some t' ∧
      (∃ a b r, t' = .entry a b r) ∧
      ∀ pre, scan t' pre = [(pre ++ ds ++ [fn], c)] := by
  intro ds
  induction ds with
  | nil =>
    intro _
    refine ⟨.entry fn (.file c) .nil, ?_, ⟨fn, .file c, .nil, rfl⟩, ?_⟩
    · simp [writeInDir, hfn, getEntry, setEntry]
    · intro pre
      simp [scan_entry, contrib, hfn2, scan]
  | cons d ds ih =>
    intro hds
    obtain ⟨hd1, hd2⟩ := hds d (by simp)
    obtain ⟨t0, h1, ⟨a, b, r, hshape⟩, h2⟩ := ih (fun x hx => hds x (by simp [hx]))
    refine ⟨.entry d t0 .nil, ?_, ⟨d, t0, .nil, rfl⟩, ?_⟩
    · simp [writeInDir, hd1, getEntry, h1, setEntry]
    · intro pre
      rw [scan_entry]
      have hnf : ∀ c0, t0 ≠ .file c0 := by rw [hshape]; intro c0 h; cases h
      rw [contrib_dir hd2 hnf, h2]
      simp [scan, List.append_assoc]

/-- L1: a path that `canAdd` accepts is written successfully, and the
scan of the result is, up to order, the old scan plus the new file. -/
theorem writeInDir_spec {fn : List Char} {c : String}
    (hfn : fn ≠ []) (hfn2 : fn ∉ ignoreListC) :
    ∀ {ds : List (List Char)} {t : FsTree},
      (∀ d ∈ ds, d ≠ [] ∧ d ∉ ignoreListC) →
      canAdd t (ds ++ [fn]) = true →
      ∃ t', writeInDir t ds fn c = some t' ∧
        (∃ a b r, t' = .entry a b r) ∧
        ∀ pre, List.Perm (scan t' pre) ((pre ++ ds ++ [fn], c) :: scan t pre) := by
  intro ds
  induction ds with
  | nil =>
    intro t _ hadd
    have hge : getEntry t fn = none := by
      simpa [canAdd, Option.isNone_iff_eq_none] using hadd
    refine ⟨setEntry t fn (.file c), ?_, setEntry_shape t fn (.file c), ?_⟩
    · simp [writeInDir, hfn, hge]
    · intro pre
      rw [scan_setEntry_fresh _ hge]
      have hco : contrib fn (.file c) pre = [(pre ++ [fn], c)] := by
        simp [contrib, hfn2]
      rw [hco]
      simp
  | cons d ds ih =>
    intro t hds hadd
    obtain ⟨hd1, hd2⟩ := hds d (by simp)
    obtain ⟨e, q', hq⟩ : ∃ e q', ds ++ [fn] = e :: q' := by
      cases ds with
      | nil => exact ⟨fn, [], rfl⟩
      | cons e es => exact ⟨e, es ++ [fn], rfl⟩
    rw [show (d :: ds) ++ [fn] = d :: e :: q' from by rw [List.cons_append, hq]]
      at hadd
    cases hget : getEntry t d with
    | none =>
      obtain ⟨t0, h1, ⟨a, b, r, hshape⟩, h2⟩ :=
        write_nil_chain (c := c) hfn hfn2 ds
          (fun x hx => hds x (List.mem_cons_of_mem _ hx))
      refine ⟨setEntry t d t0, ?_, setEntry_shape _ _ _, ?_⟩
      · simp [writeInDir, hd1, hget, h1]
      · intro pre
        rw [scan_setEntry_fresh _ hget]
        have hnf : ∀ c0, t0 ≠ .file c0 := by rw [hshape]; intro c0 h; cases h
        rw [contrib_dir hd2 hnf, h2]
        have := List.perm_append_singleton (((pre ++ [d]) ++ ds ++ [fn], c))
          (scan t pre)
        simp only [List.append_assoc] at this ⊢
        exact this
    | some sub =>
      by_cases hfile : ∃ c0, sub = .file c0
      · exfalso
        obtain ⟨c0, rfl⟩ := hfile
        rw [canAdd] at hadd
        simp [hget] at hadd
      · have hnf : ∀ c0, sub ≠ .file c0 := fun c0 h => hfile ⟨c0, h⟩
        have hadd' : canAdd sub (ds ++ [fn]) = true := by
          rw [hq]
          rw [canAdd_cons_dir hget hnf] at hadd
          exact hadd
        obtain ⟨t1, h1, hshape1, h2⟩ := ih (fun x hx => hds x (List.mem_cons_of_mem _ hx)) hadd'
        refine ⟨setEntry t d t1, ?_, setEntry_shape _ _ _, ?_⟩
        · rw [writeInDir_cons_dir hd1 hget hnf, h1]
          rfl
        · intro pre
          obtain ⟨L, R, e1, e2⟩ := scan_setEntry_existing t1 hget pre
          rw [e2, e1]
          have hct : contrib d t1 pre = scan t1 (pre ++ [d]) := by
            obtain ⟨a1, b1, r1, hs⟩ := hshape1
            have : ∀ c0, t1 ≠ .file c0 := by rw [hs]; intro c0 h; cases h
            exact contrib_dir hd2 this pre
          have hcs : contrib d sub pre = scan sub (pre ++ [d]) :=
            contrib_dir hd2 hnf pre
          rw [hct, hcs]
          have step1 :
              List.Perm (L ++ (scan t1 (pre ++ [d]) ++ R))
                (L ++ ((((pre ++ [d]) ++ ds ++ [fn], c) ::
                  scan sub (pre ++ [d])) ++ R)) :=
            ((h2 (pre ++ [d])).append_right R).append_left L
          refine step1.trans ?_
          have step2 :
              List.Perm
                (L ++ (((pre ++ [d]) ++ ds ++ [fn], c) ::
                  (scan sub (pre ++ [d]) ++ R)))
                ((((pre ++ [d]) ++ ds ++ [fn], c) ::
                  (L ++ (scan sub (pre ++ [d]) ++ R)))) :=
            List.perm_middle
          simp only [List.append_assoc] at step2 ⊢
          exact step2

theorem canAdd_ne_nil {t : FsTree} {q : List (List Char)}
    (h : canAdd t q = true) : q ≠ [] := by
  intro hq
  subst hq
  simp [canAdd] at h

theorem canAdd_nil_tree {parts : List (List Char)} (h : parts ≠ []) :
    canAdd FsTree.nil parts = true := by
  match parts, h with
  | [n], _ => simp [canAdd, getEntry]
  | d :: e :: ds, _ => simp [canAdd, getEntry]

theorem canAdd_congr_entry {t t' : FsTree} {m e : List Char}
    {q : List (List Char)} (h : getEntry t' m = getEntry t m) :
    canAdd t' (m :: e :: q) = canAdd t (m :: e :: q) := by
  cases hg : getEntry t m with
  | none => simp [canAdd, hg, h.trans hg]
  | some sub => cases sub <;> simp [canAdd, hg, h.trans hg]

theorem writeInDir_shape {fn : List Char} {c : String} (hfn : fn ≠ []) :
    ∀ {ds : List (List Char)} {t t' : FsTree}, (∀ d ∈ ds, d ≠ []) →
      writeInDir t ds fn c = some t' → ∃ a b r, t' = .entry a b r := by
  intro ds
  induction ds with
  | nil =>
    intro t t' _ hw
    rw [writeInDir, if_neg hfn] at hw
    cases hge : getEntry t fn with
    | none =>
      rw [hge] at hw
      simp at hw
      exact hw ▸ setEntry_shape t fn (.file c)
    | some sub =>
      rw [hge] at hw
      cases sub with
      | file c0 =>
        simp at hw
        exact hw ▸ setEntry_shape t fn (.file c)
      | nil => simp at hw
      | entry a b r => simp at hw
  | cons d ds ih =>
    intro t t' hds hw
    have hd1 : d ≠ [] := hds d (by simp)
    rw [writeInDir, if_neg hd1] at hw
    cases hget : getEntry t d with
    | none =>
      rw [hget] at hw
      rcases Option.map_eq_some'.1 hw with ⟨t1, _, ht'⟩
      exact ht' ▸ setEntry_shape t d t1
    | some sub =>
      rw [hget] at hw
      cases sub with
      | file c0 => simp at hw
      | nil =>
        rcases Option.map_eq_some'.1 hw with ⟨t1, _, ht'⟩
        exact ht' ▸ setEntry_shape t d t1
      | entry a b r =>
        rcases Option.map_eq_some'.1 hw with ⟨t1, _, ht'⟩
        exact ht' ▸ setEntry_shape t d t1

/-- The tree built by writing one path below an empty directory accepts
any other path that is prefix-independent of the written one. -/
theorem canAdd_chain {fn : List Char} {c : String} (hfn : fn ≠ []) :
    ∀ {ds : List (List Char)} {t0 : FsTree},
      (∀ d ∈ ds, d ≠ []) →
      writeInDir FsTree.nil ds fn c = some t0 →
      ∀ q : List (List Char), q ≠ [] →
        ¬ (ds ++ [fn] <+: q) → ¬ (q <+: ds ++ [fn]) →
        canAdd t0 q = true := by
  intro ds
  induction ds with
  | nil =>
    intro t0 _ hw q hq hp1 hp2
    have ht0 : t0 = .entry fn (.file c) .nil := by
      rw [writeInDir, if_neg hfn] at hw
      simp [getEntry, setEntry] at hw
      exact hw.symm
    subst ht0
    obtain ⟨m, q', rfl⟩ := List.exists_cons_of_ne_nil hq
    have hm : ¬ (m = fn) := by
      intro hmfn
      subst hmfn
      cases q' with
      | nil => exact hp2 ⟨[], by simp⟩
      | cons e es => exact hp1 ⟨e :: es, by simp⟩
    have hfm : ¬ (fn = m) := fun h => hm h.symm
    cases q' with
    | nil => simp [canAdd, getEntry, hfm]
    | cons e es => simp [canAdd, getEntry, hfm]
  | cons d ds ih =>
    intro t0 hds hw q hq hp1 hp2
    have hd1 : d ≠ [] := hds d (by simp)
    rw [writeInDir, if_neg hd1] at hw
    rw [show getEntry FsTree.nil d = none from rfl] at hw
    rcases Option.map_eq_some'.1 hw with ⟨t1, hw2, ht0⟩
    have ht0' : t0 = .entry d t1 .nil := by rw [← ht0]; rfl
    subst ht0'
    obtain ⟨m, q', rfl⟩ := List.exists_cons_of_ne_nil hq
    by_cases hm : m = d
    · subst hm
      cases q' with
      | nil => exact absurd ⟨ds ++ [fn], rfl⟩ hp2
      | cons e es =>
        obtain ⟨a, b, r, hshape⟩ :=
          writeInDir_shape hfn (fun x hx => hds x (List.mem_cons_of_mem _ hx)) hw2
        have hnf : ∀ c0, t1 ≠ .file c0 := by rw [hshape]; intro c0 h; cases h
        rw [canAdd_cons_dir (by simp [getEntry]) hnf]
        refine ih (fun x hx => hds x (List.mem_cons_of_mem _ hx)) hw2 (e :: es)
          (by simp) ?_ ?_
        · intro hpre
          exact hp1 (List.cons_prefix_cons.2 ⟨rfl, hpre⟩)
        · intro hpre
          exact hp2 (List.cons_prefix_cons.2 ⟨rfl, hpre⟩)
    · have hdm : ¬ (d = m) := fun h => hm h.symm
      cases q' with
      | nil => simp [canAdd, getEntry, hdm]
      | cons e es => simp [canAdd, getEntry, hdm]

/-- L2: writing one path preserves addability of every
prefix-independent path. -/
theorem canAdd_preserved {fn : List Char} {c : String} (hfn : fn ≠ []) :
    ∀ {ds : List (List Char)} {t t' : FsTree},
      (∀ d ∈ ds, d ≠ []) →
      writeInDir t ds fn c = some t' →
      ∀ q : List (List Char), canAdd t q = true →
        ¬ (ds ++ [fn] <+: q) → ¬ (q <+: ds ++ [fn]) →
        canAdd t' q = true := by
  intro ds
  induction ds with
  | nil =>
    intro t t' _ hw q hca hp1 hp2
    have hq : q ≠ [] := canAdd_ne_nil hca
    have hw' : t' = setEntry t fn (.file c) := by
      rw [writeInDir, if_neg hfn] at hw
      cases hge : getEntry t fn with
      | none => rw [hge] at hw; simpa using hw.symm
      | some sub =>
        rw [hge] at hw
        cases sub with
        | file c0 => simpa using hw.symm
        | nil => simp at hw
        | entry a b r => simp at hw
    subst hw'
    obtain ⟨m, q', rfl⟩ := List.exists_cons_of_ne_nil hq
    by_cases hm : m = fn
    · subst hm
      cases q' with
      | nil => exact absurd ⟨[], by simp⟩ hp2
      | cons e es => exact absurd ⟨e :: es, by simp⟩ hp1
    · have hge2 : getEntry (setEntry t fn (.file c)) m = getEntry t m :=
        getEntry_setEntry_ne t (.file c) hm
      cases q' with
      | nil =>
        rw [canAdd, hge2]
        rw [canAdd] at hca
        exact hca
      | cons e es => rw [canAdd_congr_entry hge2]; exact hca
  | cons d ds ih =>
    intro t t' hds hw q hca hp1 hp2
    have hq : q ≠ [] := canAdd_ne_nil hca
    have hd1 : d ≠ [] := hds d (by simp)
    rw [writeInDir, if_neg hd1] at hw
    obtain ⟨m, q', rfl⟩ := List.exists_cons_of_ne_nil hq
    cases hget : getEntry t d with
    | none =>
      rw [hget] at hw
      rcases Option.map_eq_some'.1 hw with ⟨t1, hw2, ht'⟩
      subst ht'
      by_cases hm : m = d
      · subst hm
        cases q' with
        | nil => exact absurd ⟨ds ++ [fn], rfl⟩ hp2
        | cons e es =>
          obtain ⟨a, b, r, hshape⟩ :=
            writeInDir_shape hfn (fun x hx => hds x (List.mem_cons_of_mem _ hx)) hw2
          have hnf : ∀ c0, t1 ≠ .file c0 := by rw [hshape]; intro c0 h; cases h
          rw [canAdd_cons_dir (getEntry_setEntry_self t m t1) hnf]
          refine canAdd_chain hfn (fun x hx => hds x (List.mem_cons_of_mem _ hx))
            hw2 (e :: es) (by simp) ?_ ?_
          · intro hpre
            exact hp1 (List.cons_prefix_cons.2 ⟨rfl, hpre⟩)
          · intro hpre
            exact hp2 (List.cons_prefix_cons.2 ⟨rfl, hpre⟩)
      · have hge2 : getEntry (setEntry t d t1) m = getEntry t m :=
          getEntry_setEntry_ne t t1 hm
        cases q' with
        | nil =>
          rw [canAdd, hge2]
          rw [canAdd] at hca
          exact hca
        | cons e es => rw [canAdd_congr_entry hge2]; exact hca
    | some sub =>
      rw [hget] at hw
      by_cases hfile : ∃ c0, sub = .file c0
      · obtain ⟨c0, rfl⟩ := hfile
        simp at hw
      · have hnf : ∀ c0, sub ≠ .file c0 := fun c0 h => hfile ⟨c0, h⟩
        have hw3 : (writeInDir sub ds fn c).map (fun s2 => setEntry t d s2) = some t' := by
          cases sub with
          | file c0 => exact absurd rfl (hnf c0)
          | nil => exact hw
          | entry a b r => exact hw
        rcases Option.map_eq_some'.1 hw3 with ⟨t1, hw2, ht'⟩
        subst ht'
        by_cases hm : m = d
        · subst hm
          cases q' with
          | nil => exact absurd ⟨ds ++ [fn], rfl⟩ hp2
          | cons e es =>
            obtain ⟨a, b, r, hshape⟩ :=
              writeInDir_shape hfn (fun x hx => hds x (List.mem_cons_of_mem _ hx)) hw2
            have hnf1 : ∀ c0, t1 ≠ .file c0 := by rw [hshape]; intro c0 h; cases h
            rw [canAdd_cons_dir (getEntry_setEntry_self t m t1) hnf1]
            have hca' : canAdd sub (e :: es) = true := by
              rw [canAdd_cons_dir hget hnf] at hca
              exact hca
            refine ih (fun x hx => hds x (List.mem_cons_of_mem _ hx)) hw2 (e :: es)
              hca' ?_ ?_
            · intro hpre
              exact hp1 (List.cons_prefix_cons.2 ⟨rfl, hpre⟩)
            · intro hpre
              exact hp2 (List.cons_prefix_cons.2 ⟨rfl, hpre⟩)
        · have hge2 : getEntry (setEntry t d t1) m = getEntry t m :=
            getEntry_setEntry_ne t t1 hm
          cases q' with
          | nil =>
            rw [canAdd, hge2]
            rw [canAdd] at hca
            exact hca
          | cons e es => rw [canAdd_congr_entry hge2]; exact hca

theorem comps_ne_nil {p : String} : comps p ≠ [] := by
  rw [comps, List.splitOn]
  exact List.splitOnP_ne_nil _ _

theorem parts_decomp {l : List (List Char)} (h : l ≠ []) :
    l.dropLast ++ [l.getLast?.getD []] = l := by
  rw [List.getLast?_eq_getLast_of_ne_nil h]
  simp [List.dropLast_append_getLast h]

theorem goodPath_spec {p : String} (h : goodPath p = true) :
    ∀ comp ∈ comps p, comp ≠ [] ∧ comp ∉ ignoreListC ∧ '\\' ∉ comp := by
  intro comp hcomp
  rw [goodPath, List.all_eq_true] at h
  have := h comp hcomp
  simp only [Bool.and_eq_true, Bool.not_eq_true'] at this
  refine ⟨?_, ?_, ?_⟩
  · intro he
    rw [he] at this
    simp at this
  · intro hmem
    have h2 := this.1.2
    simp at h2
    exact h2 hmem
  · intro hmem
    have h2 := this.2
    simp at h2
    exact h2 hmem

theorem mem_intercalate_single {α : Type} {x a : α} :
    ∀ {ls : List (List α)}, a ∈ List.intercalate [x] ls →
      a = x ∨ ∃ l ∈ ls, a ∈ l := by
  intro ls
  induction ls with
  | nil => intro h; simp [List.intercalate] at h
  | cons l ls ih =>
    cases ls with
    | nil =>
      intro h
      simp [List.intercalate] at h
      exact Or.inr ⟨l, by simp, h⟩
    | cons l2 ls2 =>
      intro h
      rw [show List.intercalate [x] (l :: l2 :: ls2) =
          l ++ [x] ++ List.intercalate [x] (l2 :: ls2) from by
        simp [List.intercalate]] at h
      simp only [List.append_assoc, List.mem_append, List.mem_singleton] at h
      rcases h with h | h | h
      · exact Or.inr ⟨l, by simp, h⟩
      · exact Or.inl h
      · rcases ih h with h2 | ⟨l3, hl3, ha⟩
        · exact Or.inl h2
        · exact Or.inr ⟨l3, by simp [hl3], ha⟩

/-- On a backslash-free path, rendering the split components reproduces
the path verbatim. -/
theorem renderPath_comps {p : String}
    (h : ∀ comp ∈ comps p, '\\' ∉ comp) : renderPath (comps p) = p := by
  have hbs : '\\' ∉ p.data := by
    intro hmem
    rw [show p.data = List.intercalate ['/'] (p.data.splitOn '/') from
      (List.intercalate_splitOn p.data '/').symm] at hmem
    rcases mem_intercalate_single hmem with h2 | ⟨l, hl, ha⟩
    · exact absurd h2 (by decide)
    · exact h l hl ha
  rw [renderPath, comps, List.intercalate_splitOn]
  have hmap : p.data.map (fun c => if c = '\\' then '/' else c) = p.data := by
    rw [List.map_congr_left (g := id), List.map_id]
    intro a ha
    have : a ≠ '\\' := fun he => hbs (he ▸ ha)
    simp [this]
  rw [hmap]

/-- L3: folding the save helper over a good, prefix-separated payload
starting from any compatible tree succeeds and extends the scan by
exactly the payload entries. -/
theorem writeFiles_fold_spec :
    ∀ (files : List (String × String)) (t : FsTree),
      (∀ f ∈ files, goodPath f.1 = true) →
      (∀ f ∈ files, canAdd t (comps f.1) = true) →
      sepPaths files →
      ∃ t', List.foldlM (fun t f => writeFileFS t f.1 f.2) t files = some t' ∧
        List.Perm (scan t' [])
          (scan t [] ++ files.map (fun f => (comps f.1, f.2))) := by
  intro files
  induction files with
  | nil =>
    intro t _ _ _
    exact ⟨t, rfl, by simp⟩
  | cons f fs ih =>
    intro t hgood hadd hsep
    have hpn : comps f.1 ≠ [] := comps_ne_nil
    have hdecomp : (comps f.1).dropLast ++ [(comps f.1).getLast?.getD []] =
        comps f.1 := parts_decomp hpn
    have hgf := goodPath_spec (hgood f (by simp))
    have hfn_mem : (comps f.1).getLast?.getD [] ∈ comps f.1 := by
      rw [List.getLast?_eq_getLast_of_ne_nil hpn]
      simp [List.getLast_mem]
    have hfn := hgf _ hfn_mem
    have hds : ∀ d ∈ (comps f.1).dropLast, d ≠ [] ∧ d ∉ ignoreListC :=
      fun d hd =>
        ⟨(hgf d (List.mem_of_mem_dropLast hd)).1,
         (hgf d (List.mem_of_mem_dropLast hd)).2.1⟩
    obtain ⟨t1, hw, hshape1, hperm1⟩ :=
      writeInDir_spec (c := f.2) hfn.1 hfn.2.1 hds (by rw [hdecomp]; exact hadd f (by simp))
    have hwf : writeFileFS t f.1 f.2 = some t1 := hw
    have hsep_head :=
      (List.pairwise_cons.1 hsep).1
    have hsep_tail : sepPaths fs := (List.pairwise_cons.1 hsep).2
    have hdsn : ∀ d ∈ (comps f.1).dropLast, d ≠ [] := fun d hd => (hds d hd).1
    have hadd1 : ∀ g ∈ fs, canAdd t1 (comps g.1) = true := by
      intro g hg
      have hrel := hsep_head g hg
      refine canAdd_preserved hfn.1 hdsn hw (comps g.1)
        (hadd g (List.mem_cons_of_mem _ hg)) ?_ ?_
      · rw [hdecomp]; exact hrel.1
      · rw [hdecomp]; exact hrel.2
    obtain ⟨t', hfold, hperm2⟩ :=
      ih t1 (fun g hg => hgood g (List.mem_cons_of_mem _ hg)) hadd1 hsep_tail
    refine ⟨t', ?_, ?_⟩
    · rw [List.foldlM_cons, hwf]
      simpa using hfold
    · have hstep :
          List.Perm (scan t1 [] ++ fs.map (fun f => (comps f.1, f.2)))
            (((comps f.1, f.2) :: scan t []) ++
              fs.map (fun f => (comps f.1, f.2))) := by
        have h1 := hperm1 []
        rw [show ([] : List (List Char)) ++ (comps f.1).dropLast ++
            [(comps f.1).getLast?.getD []] = comps f.1 from by
          simpa using hdecomp] at h1
        exact h1.append_right _
      refine (hperm2.trans hstep).trans ?_
      rw [List.cons_append]
      exact List.perm_middle.symm

/-- C3 as stated is refuted by a payload whose single file is named
`.env`: the save helper happily writes it, but the recursive read-back
scan skips every ignored name, so the reproduced set of relative paths
is empty rather than `[.env]`. -/
theorem roundtrip_counterexample :
    writeFilesToDisk [(".env", "SECRET")] =
      some (FsTree.entry ".env".data (.file "SECRET") .nil) ∧
    getAllFilesR (FsTree.entry ".env".data (.file "SECRET") .nil) = [] ∧
    [((".env" : String), ("SECRET" : String))] ≠ [] := by
  refine ⟨by decide, by decide, by decide⟩

/-- C3 (amended): for every generated-project payload whose relative
paths have nonempty, non-ignored, backslash-free components and are
pairwise prefix-independent, writing the files with the save helper and
reading them back with the recursive scan reproduces exactly the payload
(same relative paths, identical contents), up to order. -/
theorem generated_project_roundtrip (files : List (String × String))
    (hgood : ∀ f ∈ files, goodPath f.1 = true) (hsep : sepPaths files) :
    ∃ t, writeFilesToDisk files = some t ∧ List.Perm (getAllFilesR t) files := by
  obtain ⟨t', hfold, hperm⟩ :=
    writeFiles_fold_spec files FsTree.nil hgood
      (fun f _ => canAdd_nil_tree comps_ne_nil) hsep
  refine ⟨t', hfold, ?_⟩
  have h1 : List.Perm (getAllFilesR t')
      ((files.map (fun f => (comps f.1, f.2))).map
        (fun e => (renderPath e.1, e.2))) := by
    have := hperm.map (fun e => (renderPath e.1, e.2))
    simpa [getAllFilesR, scan] using this
  have h2 : (files.map (fun f => (comps f.1, f.2))).map
      (fun e => (renderPath e.1, e.2)) = files := by
    rw [List.map_map]
    have : files.map ((fun e => (renderPath e.1, e.2)) ∘
        (fun f => (comps f.1, f.2))) = files.map id := by
      apply List.map_congr_left
      intro f hf
      have := renderPath_comps
        (fun comp hc => (goodPath_spec (hgood f hf) comp hc).2.2)
      simp [this]
    rw [this, List.map_id]
  rw [h2] at h1
  exact h1

/-- Witness for C3 (amended) at a two-file payload. -/
theorem generated_project_roundtrip_witness :
    (∀ f ∈ [(("src/index.js" : String), ("console.log(1);" : String)),
            (("README.md" : String), ("hello" : String))], goodPath f.1 = true) ∧
    sepPaths [(("src/index.js" : String), ("console.log(1);" : String)),
              (("README.md" : String), ("hello" : String))] ∧
    ∃ t, writeFilesToDisk
        [(("src/index.js" : String), ("console.log(1);" : String)),
         (("README.md" : String), ("hello" : String))] = some t ∧
      List.Perm (getAllFilesR t)
        [(("src/index.js" : String), ("console.log(1);" : String)),
         (("README.md" : String), ("hello" : String))] :=
  ⟨by decide, by decide,
    generated_project_roundtrip _ (by decide) (by decide)⟩

/-- C6: with the language-model API key absent (or empty) in the process
environment, both tools that need it throw immediately — before any
model call (call count 0) — with the message naming the missing
variable. -/
theorem missing_api_key_fails_fast
    (env : Env) (oracle : Nat → Except String String) (p : GenParams)
    (files : String → Option String) (fsOracle : String → Except String String)
    (now : String) (dp : DetectParams)
    (h : truthyS (env "GEMINI_API_KEY") = false) :
    generateCodeM env oracle p =
      (.error "GEMINI_API_KEY environment variable is not set", 0) ∧
    detectBugsM env files fsOracle now dp =
      (.error "GEMINI_API_KEY environment variable is not set", 0) := by
  constructor
  · simp [generateCodeM, h]
  · simp [detectBugsM, h]

/-- Witness for C6 in an empty environment. -/
theorem missing_api_key_fails_fast_witness :
    truthyS ((fun _ => none : Env) "GEMINI_API_KEY") = false ∧
    generateCodeM (fun _ => none) (fun _ => .ok "x") ⟨"d", "javascript", none, none⟩ =
      (.error "GEMINI_API_KEY environment variable is not set", 0) ∧
    detectBugsM (fun _ => none) (fun _ => none) (fun _ => .ok "x") "2026-01-01"
        ⟨some "let x = 1", "javascript", none, none⟩ =
      (.error "GEMINI_API_KEY environment variable is not set", 0) :=
  ⟨rfl,
   (missing_api_key_fails_fast (fun _ => none) (fun _ => .ok "x")
     ⟨"d", "javascript", none, none⟩ (fun _ => none) (fun _ => .ok "x")
     "2026-01-01" ⟨some "let x = 1", "javascript", none, none⟩ rfl).1,
   (missing_api_key_fails_fast (fun _ => none) (fun _ => .ok "x")
     ⟨"d", "javascript", none, none⟩ (fun _ => none) (fun _ => .ok "x")
     "2026-01-01" ⟨some "let x = 1", "javascript", none, none⟩ rfl).2⟩

/-- C10: with both `rootDirectory` and `fileName` truthy, the code
resolution of `detectBugs` never consults the `code` parameter, and when
the joined path reads successfully the analysed code is exactly the
file's contents. -/
theorem detect_bugs_file_overrides_code
    (files : String → Option String) (p : DetectParams)
    (hroot : truthyS p.rootDirectory = true)
    (hfn : truthyS p.fileName = true) :
    (∀ x : Option String,
      resolveCode files ⟨x, p.language, p.rootDirectory, p.fileName⟩ =
        resolveCode files p) ∧
    (∀ content,
      files (pathJoin (p.rootDirectory.getD "") (p.fileName.getD "")) =
        some content →
      resolveCode files p =
        .ok (some content,
          some (pathJoin (p.rootDirectory.getD "") (p.fileName.getD "")))) := by
  constructor
  · intro x
    simp [resolveCode, hroot, hfn]
  · intro content hread
    simp [resolveCode, hroot, hfn, hread]

/-- Witness for C10: the file contents win over a supplied `code`
parameter. -/
theorem detect_bugs_file_overrides_code_witness :
    truthyS (some "r") = true ∧ truthyS (some "f.js") = true ∧
    resolveCode (fun q => if q = "r/f.js" then some "filecode" else none)
        ⟨some "IGNORED", "javascript", some "r", some "f.js"⟩ =
      resolveCode (fun q => if q = "r/f.js" then some "filecode" else none)
        ⟨none, "javascript", some "r", some "f.js"⟩ ∧
    resolveCode (fun q => if q = "r/f.js" then some "filecode" else none)
        ⟨none, "javascript", some "r", some "f.js"⟩ =
      .ok (some "filecode", some "r/f.js") :=
  ⟨by decide, by decide,
   (detect_bugs_file_overrides_code
     (fun q => if q = "r/f.js" then some "filecode" else none)
     ⟨none, "javascript", some "r", some "f.js"⟩ (by decide) (by decide)).1
     (some "IGNORED"),
   (detect_bugs_file_overrides_code
     (fun q => if q = "r/f.js" then some "filecode" else none)
     ⟨none, "javascript", some "r", some "f.js"⟩ (by decide) (by decide)).2
     "filecode" (by decide)⟩

/-- C2 as stated is refuted by the `src/` fallback of `detectBugs`: for
a request whose joined `rootDirectory`/`fileName` path does not exist,
the tool silently analyses `rootDirectory/src/fileName` instead when
that file exists — no error mentions (or is raised for) the missing
path. -/
theorem nonexistent_path_counterexample :
    (fun q => if q = "proj/src/app.js" then some "x" else none) "proj/app.js" =
      none ∧
    resolveCode (fun q => if q = "proj/src/app.js" then some "x" else none)
      ⟨none, "javascript", some "proj", some "app.js"⟩ =
      .ok (some "x", some "proj/src/app.js") := by
  constructor
  · decide
  · rfl

/-- C2 (amended): a `github-commit` request whose `localPath` does not
exist always fails with an error carrying that path; a `detect-bugs`
request whose joined path does not exist fails with an error carrying
that path — unless the file name lacks `src/` and the
`rootDirectory/src/fileName` fallback exists, in which case the fallback
file is read instead. -/
theorem nonexistent_path_error_contains_path
    (env : Env) (disk : String → Option FsTree) (api : GithubApi)
    (now : String) (params : CommitParams)
    (files : String → Option String) (p : DetectParams) (root fn : String)
    (hroot : p.rootDirectory = some root) (hfn : p.fileName = some fn)
    (hroot2 : root ≠ "") (hfn2 : fn ≠ "")
    (hmain : files (pathJoin root fn) = none)
    (hcommit : disk params.localPath = none) :
    (autoCommitAndPushM env disk api now params =
      .error ("Path does not exist: " ++ params.localPath) ∧
      params.localPath.data <:+:
        ("Path does not exist: " ++ params.localPath).data) ∧
    (containsSub fn "src/" = true →
      ∃ e, resolveCode files p = .error e ∧ (pathJoin root fn).data <:+: e.data) ∧
    (containsSub fn "src/" = false →
      files (pathJoin (pathJoin root "src") fn) = none →
      ∃ e, resolveCode files p = .error e ∧
        (pathJoin root fn).data <:+: e.data) := by
  refine ⟨⟨?_, ?_⟩, ?_, ?_⟩
  · simp [autoCommitAndPushM, hcommit]
  · exact ⟨"Path does not exist: ".data, [], by simp [String.data_append]⟩
  · intro hsrc
    refine ⟨"Failed to read file " ++ pathJoin root fn ++ ": " ++
      enoentMsg (pathJoin root fn), ?_, ?_⟩
    · simp [resolveCode, hroot, hfn, truthyS, hroot2, hfn2, hmain, hsrc]
    · exact ⟨"Failed to read file ".data,
        (": " ++ enoentMsg (pathJoin root fn)).data,
        by simp [String.data_append]⟩
  · intro hsrc hfall
    refine ⟨"File not found. Tried:\n1. " ++ pathJoin root fn ++ "\n2. " ++
      pathJoin (pathJoin root "src") fn ++ "\n\nError: " ++
      enoentMsg (pathJoin (pathJoin root "src") fn), ?_, ?_⟩
    · simp [resolveCode, hroot, hfn, truthyS, hroot2, hfn2, hmain, hsrc, hfall]
    · exact ⟨"File not found. Tried:\n1. ".data,
        ("\n2. " ++ pathJoin (pathJoin root "src") fn ++ "\n\nError: " ++
          enoentMsg (pathJoin (pathJoin root "src") fn)).data,
        by simp [String.data_append]⟩

/-- Witness for C2 (amended) with a missing commit path and a missing
analysis file (name without `src/`, fallback also missing). -/
theorem nonexistent_path_error_contains_path_witness :
    ((fun _ => none : String → Option FsTree) "/gone") = none ∧
    (fun _ => (none : Option String)) "r/x.js" = none ∧
    (autoCommitAndPushM (fun _ => none) (fun _ => none)
        ⟨fun _ _ => .error ⟨some 404, "nf"⟩, fun _ => .error ⟨some 404, "nf"⟩,
         fun _ => .error ⟨some 404, "nf"⟩, fun _ => .error ⟨some 404, "nf"⟩,
         fun _ _ => .error ⟨some 404, "nf"⟩, fun _ _ _ => .error ⟨some 404, "nf"⟩,
         fun _ _ => .error ⟨some 404, "nf"⟩, fun _ _ => .error ⟨some 404, "nf"⟩⟩
        "2026-01-01" ⟨"/gone", "repo", "main", some "msg", none⟩ =
      .error ("Path does not exist: " ++ "/gone") ∧
      ("/gone" : String).data <:+: ("Path does not exist: " ++ "/gone").data) ∧
    (∃ e, resolveCode (fun _ => none)
        ⟨none, "javascript", some "r", some "x.js"⟩ = .error e ∧
      (pathJoin "r" "x.js").data <:+: e.data) := by
  refine ⟨rfl, rfl, ?_, ?_⟩
  · exact (nonexistent_path_error_contains_path (fun _ => none) (fun _ => none)
      ⟨fun _ _ => .error ⟨some 404, "nf"⟩, fun _ => .error ⟨some 404, "nf"⟩,
       fun _ => .error ⟨some 404, "nf"⟩, fun _ => .error ⟨some 404, "nf"⟩,
       fun _ _ => .error ⟨some 404, "nf"⟩, fun _ _ _ => .error ⟨some 404, "nf"⟩,
       fun _ _ => .error ⟨some 404, "nf"⟩, fun _ _ => .error ⟨some 404, "nf"⟩⟩
      "2026-01-01" ⟨"/gone", "repo", "main", some "msg", none⟩
      (fun _ => none) ⟨none, "javascript", some "r", some "x.js"⟩ "r" "x.js"
      rfl rfl (by decide) (by decide) rfl rfl).1
  · exact (nonexistent_path_error_contains_path (fun _ => none) (fun _ => none)
      ⟨fun _ _ => .error ⟨some 404, "nf"⟩, fun _ => .error ⟨some 404, "nf"⟩,
       fun _ => .error ⟨some 404, "nf"⟩, fun _ => .error ⟨some 404, "nf"⟩,
       fun _ _ => .error ⟨some 404, "nf"⟩, fun _ _ _ => .error ⟨some 404, "nf"⟩,
       fun _ _ => .error ⟨some 404, "nf"⟩, fun _ _ => .error ⟨some 404, "nf"⟩⟩
      "2026-01-01" ⟨"/gone", "repo", "main", some "msg", none⟩
      (fun _ => none) ⟨none, "javascript", some "r", some "x.js"⟩ "r" "x.js"
      rfl rfl (by decide) (by decide) rfl rfl).2.2 (by decide) rfl

/-- C7 as stated is refuted when neither the request nor the
environment names an owner: the account used is the hard-wired literal
`Eagleeye1811`, which no environment read produced. -/
theorem owner_fallback_counterexample :
    resolveOwner none (fun _ => none) = "Eagleeye1811" ∧
    (fun _ => (none : Option String)) "GITHUB_OWNER" = none ∧
    ∀ k : String, (fun _ => (none : Option String)) k ≠ some "Eagleeye1811" :=
  ⟨rfl, rfl, fun _ => by simp⟩

/-- C7 (amended): without an owner parameter the account name used is
the `GITHUB_OWNER` environment value when truthy and the hard-wired
default `Eagleeye1811` otherwise; the access token is read from
`GITHUB_TOKEN` and nowhere else. -/
theorem owner_resolution (env : Env) (po : Option String) :
    (truthyS po = true → resolveOwner po env = po.getD "") ∧
    (truthyS po = false → truthyS (env "GITHUB_OWNER") = true →
      resolveOwner po env = (env "GITHUB_OWNER").getD "") ∧
    (truthyS po = false → truthyS (env "GITHUB_OWNER") = false →
      resolveOwner po env = "Eagleeye1811") ∧
    octokitAuth env = env "GITHUB_TOKEN" := by
  refine ⟨?_, ?_, ?_, rfl⟩
  · intro h1
    simp [resolveOwner, h1]
  · intro h1 h2
    simp [resolveOwner, h1, h2]
  · intro h1 h2
    simp [resolveOwner, h1, h2]

/-- Witness for C7 (amended): owner absent from the request, present in
the environment. -/
theorem owner_resolution_witness :
    truthyS ((none : Option String)) = false ∧
    truthyS ((fun k => if k = "GITHUB_OWNER" then some "alice" else none) "GITHUB_OWNER") = true ∧
    resolveOwner none (fun k => if k = "GITHUB_OWNER" then some "alice" else none) =
      ((fun k => if k = "GITHUB_OWNER" then some "alice" else none) "GITHUB_OWNER").getD "" :=
  ⟨rfl, by decide,
   (owner_resolution (fun k => if k = "GITHUB_OWNER" then some "alice" else none)
     none).2.1 rfl (by decide)⟩

theorem getEntry_mem_chainNames {r : FsTree} {d : List Char} {sub : FsTree}
    (h : getEntry r d = some sub) : d ∈ chainNames r := by
  induction r with
  | file c => simp [getEntry] at h
  | nil => simp [getEntry] at h
  | entry m c rr ihc ihr =>
    by_cases hm : m = d
    · simp [chainNames, hm]
    · rw [getEntry, if_neg hm] at h
      simp [chainNames, ihr h]

/-- Scan soundness on well-formed trees: every scanned entry denotes a
file node reachable under the scan root, and none of its components is
on the ignore list. -/
theorem scan_sound :
    ∀ (t : FsTree) (pre : List (List Char)), wfTree t = true →
      ∀ pc : List (List Char) × String, pc ∈ scan t pre →
        ∃ q, pc.1 = pre ++ q ∧ q ≠ [] ∧
          findNode t q = some (.file pc.2) ∧
          ∀ comp ∈ q, comp ∉ ignoreListC := by
  intro t
  induction t with
  | file c => intro pre _ pc h; simp [scan] at h
  | nil => intro pre _ pc h; simp [scan] at h
  | entry n x r ihx ihr =>
    intro pre hwf pc hmem
    rw [wfTree] at hwf
    simp only [Bool.and_eq_true, Bool.not_eq_true'] at hwf
    obtain ⟨⟨hwx, hwr⟩, hnames⟩ := hwf
    rw [scan_entry] at hmem
    rcases List.mem_append.1 hmem with hc | hr
    · by_cases hn : n ∈ ignoreListC
      · simp [contrib, hn] at hc
      · cases x with
        | file c0 =>
          simp [contrib, hn] at hc
          obtain ⟨h1, h2⟩ := Prod.mk.injEq .. ▸ hc
          refine ⟨[n], by simp [hc], by simp, ?_, by simp [hn]⟩
          rw [show pc.2 = c0 from by simp [hc]]
          simp [findNode, getEntry]
        | nil => simp [contrib, hn, scan] at hc
        | entry a b rr =>
          rw [show contrib n (FsTree.entry a b rr) pre =
            scan (FsTree.entry a b rr) (pre ++ [n]) from by
              simp [contrib, hn]] at hc
          obtain ⟨q, hq1, hq2, hq3, hq4⟩ := ihx (pre ++ [n]) hwx pc hc
          refine ⟨n :: q, by simp [hq1], by simp, ?_, ?_⟩
          · rw [findNode]
            simp only [getEntry, if_pos rfl]
            exact hq3
          · intro comp hcomp
            rcases List.mem_cons.1 hcomp with hceq | hcm
            · rw [hceq]; exact hn
            · exact hq4 comp hcm
    · obtain ⟨q, hq1, hq2, hq3, hq4⟩ := ihr pre hwr pc hr
      obtain ⟨d, q2, rfl⟩ := List.exists_cons_of_ne_nil hq2
      have hget : ∃ sub, getEntry r d = some sub := by
        rw [findNode] at hq3
        cases hg : getEntry r d with
        | none => rw [hg] at hq3; simp at hq3
        | some sub => exact ⟨sub, rfl⟩
      obtain ⟨sub, hget⟩ := hget
      have hdn : ¬ (n = d) := by
        intro he
        have := getEntry_mem_chainNames hget
        rw [← he] at this
        have hnc : (chainNames r).contains n = true := by
          simpa using this
        rw [hnames] at hnc
        cases hnc
      refine ⟨d :: q2, hq1, by simp, ?_, hq4⟩
      rw [findNode] at hq3 ⊢
      rw [getEntry, if_neg hdn]
      exact hq3

/-- C9: every entry of the commit helper's recursive scan of a
well-formed directory tree lies strictly under the scanned root, denotes
a regular file (never a directory), has no path component on the fixed
ignore list, and renders to a relative path free of backslashes — so
the blob-upload loop, which iterates exactly over these entries, never
uploads a file with an ignored name. -/
theorem commit_scan_invariant (t : FsTree) (hwf : wfTree t = true)
    (p : List (List Char)) (c : String) (hmem : (p, c) ∈ scan t []) :
    p ≠ [] ∧ findNode t p = some (.file c) ∧
    (∀ comp ∈ p, comp ∉ ignoreListC) ∧
    '\\' ∉ (renderPath p).data := by
  obtain ⟨q, hq1, hq2, hq3, hq4⟩ := scan_sound t [] hwf (p, c) hmem
  simp only [List.nil_append] at hq1
  subst hq1
  refine ⟨hq2, hq3, hq4, ?_⟩
  intro hmem2
  rw [renderPath] at hmem2
  simp only [List.mem_map] at hmem2
  obtain ⟨b, _, hb⟩ := hmem2
  by_cases hbs : b = '\\'
  · rw [hbs] at hb
    simp at hb
  · rw [if_neg hbs] at hb
    exact hbs hb

/-- Witness for C9 on a concrete two-entry tree. -/
theorem commit_scan_invariant_witness :
    wfTree (FsTree.entry "src".data
      (FsTree.entry "app.js".data (.file "x") .nil)
      (FsTree.entry ".git".data (.file "cfg") .nil)) = true ∧
    (["src".data, "app.js".data], "x") ∈
      scan (FsTree.entry "src".data
        (FsTree.entry "app.js".data (.file "x") .nil)
        (FsTree.entry ".git".data (.file "cfg") .nil)) [] ∧
    (["src".data, "app.js".data] ≠ [] ∧
      findNode (FsTree.entry "src".data
        (FsTree.entry "app.js".data (.file "x") .nil)
        (FsTree.entry ".git".data (.file "cfg") .nil))
        ["src".data, "app.js".data] = some (.file "x") ∧
      (∀ comp ∈ ["src".data, "app.js".data], comp ∉ ignoreListC) ∧
      '\\' ∉ (renderPath ["src".data, "app.js".data]).data) :=
  ⟨by decide, by decide,
   commit_scan_invariant _ (by decide) ["src".data, "app.js".data] "x"
     (by decide)⟩

/-- Text whose first character is not whitespace and not a possible
start of a JSON value is rejected by the `JSON.parse` model. -/
theorem jsonParse_head_reject {s : String} {c : Char} {rest : List Char}
    (hdata : s.data = c :: rest) (hws : isWs c = false)
    (h1 : ¬ (c = '{')) (h2 : ¬ (c = '[')) (h3 : ¬ (c = '"')) (h4 : ¬ (c = 't'))
    (h5 : ¬ (c = 'f')) (h6 : ¬ (c = 'n')) (h7 : ¬ (c = '-'))
    (h8 : isDigit c = false) :
    jsonParse s = none := by
  unfold jsonParse
  rw [hdata]
  have hskip : skipWs (c :: rest) = c :: rest := by
    rw [skipWs, if_neg (by simp [hws])]
  have hnone : parseVal ((c :: rest).length + 1) (c :: rest) = none := by
    rw [show (c :: rest).length + 1 = (rest.length + 1) + 1 from by simp]
    rw [parseVal, hskip]
    simp [h1, h2, h3, h4, h5, h6, h7, h8]
  rw [hnone]

/-- `badHead` really is a sufficient condition for `jsonParse` to
fail. -/
theorem jsonParse_of_badHead {s : String} (h : badHead s = true) :
    jsonParse s = none := by
  rcases hdata : s.data with _ | ⟨c, rest⟩
  · rw [badHead, hdata] at h
    simp at h
  · rw [badHead, hdata] at h
    simp only [Bool.and_eq_true, Bool.not_eq_true', beq_eq_false_iff_ne,
      ne_eq] at h
    obtain ⟨⟨⟨⟨⟨⟨⟨⟨hws, h1⟩, h2⟩, h3⟩, h4⟩, h5⟩, h6⟩, h7⟩, h8⟩ := h
    exact jsonParse_head_reject hdata hws h1 h2 h3 h4 h5 h6 h7 h8

/-- `badHead` only reads the first character, so it survives appending
any suffix. -/
theorem badHead_append (lit s : String) (h : badHead lit = true) :
    badHead (lit ++ s) = true := by
  rw [badHead] at h ⊢
  rw [String.data_append]
  cases hl : lit.data with
  | nil =>
    rw [hl] at h
    simp at h
  | cons c tl =>
    rw [hl] at h
    simp only [List.cons_append]
    simpa using h

theorem formatCodeGen_not_json (d : JsonVal) :
    jsonParse (formatCodeGenerationResponse d) = none := by
  rw [formatCodeGenerationResponse]
  cases htr : truthy (jget d "success") with
  | false =>
    simp only [Bool.not_false, eq_self_iff_true, if_true]
    exact jsonParse_of_badHead (by decide)
  | true =>
    simp only [Bool.not_true, Bool.false_eq_true, if_false]
    exact jsonParse_of_badHead (badHead_append _ _ (by decide))

theorem formatBugDetection_not_json (d : JsonVal) :
    jsonParse (formatBugDetectionResponse d) = none := by
  rw [formatBugDetectionResponse]
  cases htr : truthy (jget d "success") with
  | false =>
    simp only [Bool.not_false, eq_self_iff_true, if_true]
    exact jsonParse_of_badHead (by decide)
  | true =>
    simp only [Bool.not_true, Bool.false_eq_true, if_false]
    exact jsonParse_of_badHead (badHead_append _ _ (by decide))

theorem formatGitHubCommit_not_json (d : JsonVal) :
    jsonParse (formatGitHubCommitResponse d) = none := by
  rw [formatGitHubCommitResponse]
  cases htr : truthy (jget d "success") with
  | false =>
    simp only [Bool.not_false, eq_self_iff_true, if_true]
    exact jsonParse_of_badHead (by decide)
  | true =>
    simp only [Bool.not_true, Bool.false_eq_true, if_false]
    exact jsonParse_of_badHead (badHead_append _ _ (by decide))

/-- For the three markdown-producing tools, `formatContent` never
returns parseable JSON. -/
theorem formatContent_not_json (tool : String) (content : String ⊕ JsonVal)
    (htool : tool = "generate-code" ∨ tool = "detect-bugs" ∨
      tool = "github-commit") :
    jsonParse (formatContent tool content) = none := by
  rw [formatContent.eq_def]
  rcases content with s | v
  · cases hp : jsonParse s with
    | none => simp [hp]
    | some d =>
      simp only [hp]
      rcases htool with ht | ht | ht
      all_goals subst ht
      · simp only
        simp
        exact formatCodeGen_not_json d
      · simp only
        simp
        exact formatBugDetection_not_json d
      · simp only
        simp
        exact formatGitHubCommit_not_json d
  · rcases htool with ht | ht | ht
    all_goals subst ht
    · simp only
      simp
      exact formatCodeGen_not_json v
    · simp only
      simp
      exact formatBugDetection_not_json v
    · simp only
      simp
      exact formatGitHubCommit_not_json v

/-- For the three markdown-producing tools the formatted reply is never
itself parseable JSON. -/
theorem formatToolResponse_not_json (tool : String) (r : RawResult)
    (htool : tool = "generate-code" ∨ tool = "detect-bugs" ∨
      tool = "github-commit") :
    jsonParse (formatToolResponse tool r) = none := by
  rcases r with s | ts | v
  · exact formatContent_not_json tool (.inl s) htool
  · cases ts with
    | nil =>
      show jsonParse
        "Response received but formatting failed. Check console for details." =
        none
      exact jsonParse_of_badHead (by decide)
    | cons t ts2 => exact formatContent_not_json tool (.inl t) htool
  · exact formatContent_not_json tool (.inr v) htool

/-- C8: the result formatter and the file-tree renderer are
deterministic — equal structured inputs give equal output strings — and
the result formatter is idempotent for each of the four tools: feeding a
formatted reply back through the formatter returns it unchanged. -/
theorem formatters_deterministic_idempotent (tool : String) (r : RawResult)
    (htool : tool ∈ ["generate-code", "detect-bugs", "check-best-practices",
      "github-commit"]) :
    formatToolResponse tool r = formatToolResponse tool r ∧
    (∀ (node : Option JsonVal) (pre : String) (b : Bool),
      formatFileTree node pre b = formatFileTree node pre b) ∧
    formatToolResponse tool (.str (formatToolResponse tool r)) =
      formatToolResponse tool r := by
  refine ⟨rfl, fun _ _ _ => rfl, ?_⟩
  by_cases hcbp : tool = "check-best-practices"
  · subst hcbp
    show formatContent _ (.inl (formatToolResponse _ r)) = _
    rw [formatContent.eq_def]
    cases hp : jsonParse (formatToolResponse "check-best-practices" r) with
    | none => simp [hp]
    | some d => simp [hp, formatBestPracticesResponse]
  · have h3 : tool = "generate-code" ∨ tool = "detect-bugs" ∨
        tool = "github-commit" := by
      simp only [List.mem_cons, List.mem_singleton] at htool
      rcases htool with h | h | h | h | h
      · exact Or.inl h
      · exact Or.inr (Or.inl h)
      · exact absurd h hcbp
      · exact Or.inr (Or.inr h)
      · simp at h
    have hnone := formatToolResponse_not_json tool r h3
    show formatContent _ (.inl (formatToolResponse tool r)) = _
    rw [formatContent.eq_def]
    simp [hnone]

/-- Witness for C8 at the `github-commit` formatter on a bare string
result. -/
theorem formatters_deterministic_idempotent_witness :
    ("github-commit" : String) ∈
      ["generate-code", "detect-bugs", "check-best-practices",
       "github-commit"] ∧
    formatToolResponse "github-commit"
        (.str (formatToolResponse "github-commit" (.str "hello"))) =
      formatToolResponse "github-commit" (.str "hello") :=
  ⟨by decide,
   (formatters_deterministic_idempotent "github-commit" (.str "hello")
     (by decide)).2.2⟩

/-- C5 as stated is refuted at a failing model call: the MCP handler
catches the failure and returns a plain (untagged) envelope whose text
begins `Failed to generate code:`, the backend formats it and replies
with a *success*-tagged response — not an error-tagged one. -/
theorem tool_failure_success_tagged_counterexample :
    wsToolReply "generate-code" (.ok (mcpGenerateCodeHandler (.error "boom"))) =
      ⟨"success", "Failed to generate code: boom", none⟩ ∧
    ("success" : String) ≠ "error" := by
  constructor
  · rfl
  · decide

/-- C5 (amended): a failing external call is caught at the point of the
call and wrapped exactly once into the human-readable string
`Failed to generate code: <message>`; the call is made at most once (and
exactly once whenever the key check passes) — never retried; the
wrapped failure reaches the websocket client as a success-tagged
response carrying that string, while the error-tagged envelope
`Error executing tool: ...` is produced only when the tool call itself
rejects at the MCP client. -/
theorem external_failure_wrapped_once
    (env : Env) (oracle : Nat → Except String String) (p : GenParams) :
    (generateCodeM env oracle p).2 ≤ 1 ∧
    (∀ e, truthyS (env "GEMINI_API_KEY") = true → oracle 0 = .error e →
      (generateCodeM env oracle p).2 = 1 ∧
      wsToolReply "generate-code"
        (.ok (mcpGenerateCodeHandler (generateCodeM env oracle p).1)) =
        ⟨"success", "Failed to generate code: " ++ e, none⟩) ∧
    (∀ msg, wsToolReply "generate-code" (.error msg) =
      ⟨"error", "Error executing tool: " ++ msg, none⟩) := by
  refine ⟨?_, ?_, fun msg => rfl⟩
  · rw [generateCodeM]
    cases htr : truthyS (env "GEMINI_API_KEY") with
    | false => simp
    | true =>
      simp only [Bool.not_true, Bool.false_eq_true, if_false]
      cases oracle 0 <;> simp
  · intro e hkey herr
    have hgen : generateCodeM env oracle p = (.error e, 1) := by
      rw [generateCodeM, hkey]
      simp [herr]
    rw [hgen]
    refine ⟨rfl, ?_⟩
    have hjson : jsonParse ("Failed to generate code: " ++ e) = none :=
      jsonParse_of_badHead (badHead_append "Failed to generate code: " e
        (by decide))
    show wsToolReply "generate-code"
      (.ok (.mcp ["Failed to generate code: " ++ e])) = _
    have hfmt : formatToolResponse "generate-code"
        (.mcp ["Failed to generate code: " ++ e]) =
        "Failed to generate code: " ++ e := by
      show formatContent "generate-code"
        (.inl ("Failed to generate code: " ++ e)) = _
      rw [formatContent.eq_def]
      simp [hjson]
    rw [wsToolReply.eq_def]
    simp only [hfmt, WsReply.mk.injEq]
    refine ⟨trivial, trivial, ?_⟩
    simp only [eq_self_iff_true, if_true]
    split
    · exact hjson
    · rfl

/-- Witness for C5 (amended) at a concrete failing call. -/
theorem external_failure_wrapped_once_witness :
    truthyS ((fun _ => some "key" : Env) "GEMINI_API_KEY") = true ∧
    ((fun _ => .error "boom" : Nat → Except String String) 0 = .error "boom") ∧
    (generateCodeM (fun _ => some "key") (fun _ => .error "boom")
        ⟨"d", "javascript", none, none⟩).2 = 1 ∧
    wsToolReply "generate-code"
        (.ok (mcpGenerateCodeHandler
          (generateCodeM (fun _ => some "key") (fun _ => .error "boom")
            ⟨"d", "javascript", none, none⟩).1)) =
      ⟨"success", "Failed to generate code: " ++ "boom", none⟩ :=
  ⟨by decide, rfl,
   ((external_failure_wrapped_once (fun _ => some "key")
      (fun _ => .error "boom") ⟨"d", "javascript", none, none⟩).2.1 "boom"
      (by decide) rfl).1,
   ((external_failure_wrapped_once (fun _ => some "key")
      (fun _ => .error "boom") ⟨"d", "javascript", none, none⟩).2.1 "boom"
      (by decide) rfl).2⟩

end MCP
